import Mathlib

/-! Verification development for the `ccat_context_guardian_enricher` plugin.

Python strings are modeled as lists of UTF-8 bytes (`List Nat`) in the
URL-rewriting pipeline (where `urllib` and `re` operate), and as Lean `String`s
in the gate / message-selection / translation logic (where only character
counts and substring tests matter).  All definitions are executable. -/

namespace CGE

/-- UTF-8 encoding of a Unicode code point, used to turn Lean string literals
into the byte lists the URL pipeline operates on. -/
def utf8Bytes (c : Nat) : List Nat :=
  if c < 0x80 then [c]
  else if c < 0x800 then [0xC0 + c / 0x40, 0x80 + c % 0x40]
  else if c < 0x10000 then
    [0xE0 + c / 0x1000, 0x80 + (c / 0x40) % 0x40, 0x80 + c % 0x40]
  else
    [0xF0 + c / 0x40000, 0x80 + (c / 0x1000) % 0x40, 0x80 + (c / 0x40) % 0x40,
     0x80 + c % 0x40]

/-- A Lean string literal as a list of UTF-8 bytes. -/
def strB (s : String) : List Nat :=
  s.data.foldr (fun ch acc => utf8Bytes ch.toNat ++ acc) []

/-- Does `pat` occur as a contiguous sublist of `l`?  Models Python `pat in s`. -/
def hasSub [BEq α] (pat : List α) : List α → Bool
  | [] => pat.isEmpty
  | a :: l => pat.isPrefixOf (a :: l) || hasSub pat l

/-- Fuel-driven scanner behind `countSub`; the wrapper supplies enough fuel
(the list length) that the fuel bound is never hit. -/
def countSubGo [BEq α] (pat : List α) : Nat → List α → Nat
  | _, [] => 0
  | 0, _ => 0
  | f + 1, a :: l =>
    if pat.isPrefixOf (a :: l) then 1 + countSubGo pat f (l.drop (pat.length - 1))
    else countSubGo pat f l

/-- Number of non-overlapping, left-to-right occurrences of `pat`
(model of Python `s.count(pat)` for non-empty `pat`). -/
def countSub [BEq α] (pat l : List α) : Nat := countSubGo pat l.length l

/-- Fuel-driven scanner behind `replaceAll`. -/
def replaceAllGo [BEq α] (pat rep : List α) : Nat → List α → List α
  | _, [] => []
  | 0, l => l
  | f + 1, a :: l =>
    if pat.isPrefixOf (a :: l) && !pat.isEmpty then
      rep ++ replaceAllGo pat rep f (l.drop (pat.length - 1))
    else a :: replaceAllGo pat rep f l

/-- Replace every (non-overlapping, left-to-right) occurrence of `pat` by
`rep`; model of Python `s.replace(pat, rep)` for non-empty `pat`. -/
def replaceAll [BEq α] (pat rep l : List α) : List α := replaceAllGo pat rep l.length l

/-- Split at the first occurrence of `pat`: returns the part before it and the
part after it, or `none` when `pat` does not occur.  Models
`s.split(pat)[0]` / `s.find(pat)` usage. -/
def splitFirstSub [BEq α] (pat : List α) : List α → Option (List α × List α)
  | [] => none
  | a :: l =>
    if pat.isPrefixOf (a :: l) then some ([], (a :: l).drop pat.length)
    else match splitFirstSub pat l with
      | some (b, r) => some (a :: b, r)
      | none => none

/-- The part of `l` before the first occurrence of `pat` (whole list when
absent): Python `s.split(pat)[0]`. -/
def takeBeforeSub [BEq α] (pat : List α) (l : List α) : List α :=
  match splitFirstSub pat l with
  | some (b, _) => b
  | none => l

/-- Split at the first occurrence of the single element `sep`. -/
def splitFirstByte (sep : Nat) : List Nat → Option (List Nat × List Nat)
  | [] => none
  | b :: l =>
    if b == sep then some ([], l)
    else match splitFirstByte sep l with
      | some (p, r) => some (b :: p, r)
      | none => none

/-- Full split on a separator byte, Python `s.split(sep)` (keeps empty parts). -/
def splitOnByte (sep : Nat) : List Nat → List (List Nat)
  | [] => [[]]
  | b :: l =>
    if b == sep then [] :: splitOnByte sep l
    else match splitOnByte sep l with
      | f :: r => (b :: f) :: r
      | [] => [[b]]

/-- ASCII whitespace bytes, the byte-level model of Python's `\s` / `str.split()`
whitespace set (space, tab, newline, carriage return, vertical tab, form feed). -/
def wsBytes : List Nat := [32, 9, 10, 13, 11, 12]

def isWsB (b : Nat) : Bool := wsBytes.contains b

def isDigitB (b : Nat) : Bool := 48 ≤ b && b ≤ 57

/-- Drop trailing occurрences of byte `c`: Python `s.rstrip(ch)`. -/
def rstripByte (c : Nat) (l : List Nat) : List Nat :=
  ((l.reverse).dropWhile (· == c)).reverse

/-- Python `s.split()` (split on whitespace runs, dropping empty parts). -/
def pySplitWs : List Nat → List (List Nat)
  | [] => []
  | b :: l =>
    if isWsB b then pySplitWs l
    else
      match pySplitWs l with
      | [] => [[b]]
      | f :: r => if l ≠ [] ∧ isWsB (l.headD 0) then [b] :: f :: r else (b :: f) :: r

/-! ### Percent-encoding: byte-level model of `urllib.parse.quote_plus` /
`unquote_plus` (the string/bytes boundary of CPython collapses at the byte
level; `%XX` escapes are produced uppercase and accepted in either case). -/

/-- Bytes `urllib.parse.quote` never escapes: ASCII letters, digits, `_.-~`. -/
def isAlwaysSafe (b : Nat) : Bool :=
  (48 ≤ b && b ≤ 57) || (65 ≤ b && b ≤ 90) || (97 ≤ b && b ≤ 122) ||
  b == 95 || b == 46 || b == 45 || b == 126

/-- Uppercase hex digit byte for a nibble. -/
def hexDigitChar (n : Nat) : Nat := if n < 10 then 48 + n else 55 + n

/-- Value of a hex digit byte (either case), `none` for non-hex bytes. -/
def hexVal (b : Nat) : Option Nat :=
  if 48 ≤ b ∧ b ≤ 57 then some (b - 48)
  else if 65 ≤ b ∧ b ≤ 70 then some (b - 55)
  else if 97 ≤ b ∧ b ≤ 102 then some (b - 87)
  else none

/-- `quote_plus` on a single byte. -/
def quotePlusByte (b : Nat) : List Nat :=
  if isAlwaysSafe b then [b]
  else if b == 32 then [43]
  else [37, hexDigitChar (b / 16), hexDigitChar (b % 16)]

/-- `urllib.parse.quote_plus` over a byte string. -/
def quotePlus (l : List Nat) : List Nat :=
  l.foldr (fun b acc => quotePlusByte b ++ acc) []

/-- `urllib.parse.unquote_plus` over a byte string: `+` becomes space, `%XX`
with two hex digits decodes to a byte, anything else passes through. -/
def unquotePlus : List Nat → List Nat
  | [] => []
  | [b] => if b = 43 then [32] else [b]
  | [b, c] =>
    if b = 43 then 32 :: unquotePlus [c]
    else if b = 37 then 37 :: unquotePlus [c]
    else b :: unquotePlus [c]
  | b :: a :: c :: l =>
    if b = 43 then 32 :: unquotePlus (a :: c :: l)
    else if b = 37 then
      match hexVal a, hexVal c with
      | some x, some y => (16 * x + y) :: unquotePlus l
      | _, _ => 37 :: unquotePlus (a :: c :: l)
    else b :: unquotePlus (a :: c :: l)

/-! ### Query strings: `parse_qsl` / `parse_qs` / `urlencode(..., doseq=True)` -/

/-- `urllib.parse.parse_qsl(q)` with default arguments: split on `&`, drop
fields without `=` and fields with an empty value (`keep_blank_values=False`),
unquote names and values. -/
def parseQsl (q : List Nat) : List (List Nat × List Nat) :=
  (splitOnByte 38 q).filterMap fun field =>
    if field.isEmpty then none
    else match splitFirstByte 61 field with
      | none => none
      | some (n, v) => if v.isEmpty then none else some (unquotePlus n, unquotePlus v)

/-- Insert one `(key, value)` pair into the grouped dictionary, preserving
first-occurrence key order (Python dict insertion order). -/
def qsInsert (d : List (List Nat × List (List Nat))) (k v : List Nat) :
    List (List Nat × List (List Nat)) :=
  match d with
  | [] => [(k, [v])]
  | (k', vs) :: rest =>
    if k' = k then (k', vs ++ [v]) :: rest else (k', vs) :: qsInsert rest k v

/-- `urllib.parse.parse_qs(q)`: parsed pairs grouped by key into an ordered
dictionary. -/
def parseQs (q : List Nat) : List (List Nat × List (List Nat)) :=
  (parseQsl q).foldl (fun d kv => qsInsert d kv.1 kv.2) []

def hasKeyQs (d : List (List Nat × List (List Nat))) (k : List Nat) : Bool :=
  d.any (fun p => p.1 == k)

/-- Join byte strings with a separator byte (`sep.join(fields)`). -/
def joinSep (sep : Nat) : List (List Nat) → List Nat
  | [] => []
  | [f] => f
  | f :: fs => f ++ sep :: joinSep sep fs

/-- The `k=v` fields produced by `urlencode(d, doseq=True)`, in order. -/
def qsFields (d : List (List Nat × List (List Nat))) : List (List Nat) :=
  d.foldr (fun kv acc => kv.2.map (fun v => quotePlus kv.1 ++ 61 :: quotePlus v) ++ acc) []

/-- `urllib.parse.urlencode(d, doseq=True)` over the grouped dictionary. -/
def urlencodeQs (d : List (List Nat × List (List Nat))) : List Nat :=
  joinSep 38 (qsFields d)

/-! ### URL splitting (the query/fragment components of `urlparse` /
`urlunparse`): the fragment is split off at the first `#`, then the query at
the first `?`; reassembly re-inserts a non-empty query and a non-empty
fragment.  Scheme/netloc/path/params are carried verbatim in the base. -/

def urlSplit3 (u : List Nat) : List Nat × List Nat × Option (List Nat) :=
  let pf := match splitFirstByte 35 u with
    | some (a, b) => (a, some b)
    | none => (u, none)
  match splitFirstByte 63 pf.1 with
  | some (a, b) => (a, b, pf.2)
  | none => (pf.1, [], pf.2)

def urlJoinQ (base q : List Nat) (frag : Option (List Nat)) : List Nat :=
  base ++ 63 :: q ++ (match frag with
    | some f => if f.isEmpty then [] else 35 :: f
    | none => [])

/-- The byte pattern `/(offset)/` (to be followed by one or more digits). -/
def offsetPat : List Nat := strB "/(offset)/"

/-- Fuel-driven scanner behind `stripOffset`. -/
def stripOffsetGo : Nat → List Nat → List Nat
  | _, [] => []
  | 0, l => l
  | f + 1, b :: l =>
    if offsetPat.isPrefixOf (b :: l) then
      let rest := l.drop 9
      if (rest.takeWhile isDigitB).isEmpty then b :: stripOffsetGo f l
      else stripOffsetGo f (rest.dropWhile isDigitB)
    else b :: stripOffsetGo f l

/-- `re.sub(r"/\(offset\)/\d+", "", url)`: remove every `/(offset)/<digits>`
segment, scanning left to right and continuing after each removal. -/
def stripOffset (l : List Nat) : List Nat := stripOffsetGo l.length l

/-- The key `utm_source` as bytes. -/
def utmKey : List Nat := strB "utm_source"

/-- Model of `add_utm_tracking_to_url` (`src/utils.py` and
`src/context_guardian_enricher.py`, identical copies): strip `/(offset)/<n>`
segments, then (for a non-empty tracking parameter) re-encode the query with
`utm_source` appended unless a `utm_source` key is already present. -/
def addUtmTrackingToUrl (url utm : List Nat) : List Nat :=
  let u := stripOffset url
  if utm.isEmpty then u
  else if hasKeyQs (parseQs (urlSplit3 u).2.1) utmKey then u
  else
    urlJoinQ (urlSplit3 u).1
      (urlencodeQs (parseQs (urlSplit3 u).2.1 ++ [(utmKey, [utm])]))
      (urlSplit3 u).2.2

example : addUtmTrackingToUrl (strB "http://e.com/p?a=1&b=2&a=3") (strB "x")
    = strB "http://e.com/p?a=1&a=3&b=2&utm_source=x" := by decide

example : addUtmTrackingToUrl (strB "http://e.com/p?a=&b=1") (strB "x")
    = strB "http://e.com/p?b=1&utm_source=x" := by decide

example : addUtmTrackingToUrl (strB "http://e.com/(offset)/20/p?utm_source=q") (strB "x")
    = strB "http://e.com/p?utm_source=q" := by decide

example : addUtmTrackingToUrl (strB "http://a.c/x#f") (strB "p")
    = strB "http://a.c/x?utm_source=p#f" := by decide

/-! ### Percent-encoding round trip -/

lemma hexVal_hexDigitChar (n : Nat) (h : n < 16) : hexVal (hexDigitChar n) = some n := by
  interval_cases n <;> decide

lemma hexDigitChar_safe (n : Nat) (h : n < 16) : isAlwaysSafe (hexDigitChar n) = true := by
  interval_cases n <;> decide

lemma safe_not_special (c : Nat) (h : isAlwaysSafe c = true) :
    c ≠ 35 ∧ c ≠ 63 ∧ c ≠ 38 ∧ c ≠ 61 ∧ c ≠ 43 ∧ c ≠ 37 := by
  refine ⟨?_, ?_, ?_, ?_, ?_, ?_⟩ <;> rintro rfl <;> exact absurd h (by decide)

lemma quotePlusByte_ne_nil (b : Nat) : quotePlusByte b ≠ [] := by
  unfold quotePlusByte
  split
  · simp
  · split <;> simp

lemma quotePlus_cons (b : Nat) (s : List Nat) :
    quotePlus (b :: s) = quotePlusByte b ++ quotePlus s := rfl

lemma quotePlus_ne_nil (v : List Nat) (h : v ≠ []) : quotePlus v ≠ [] := by
  cases v with
  | nil => exact absurd rfl h
  | cons b s =>
    rw [quotePlus_cons]
    intro hx
    exact quotePlusByte_ne_nil b (List.append_eq_nil.mp hx).1

lemma unquotePlus_nil : unquotePlus [] = [] := rfl

lemma unquotePlus_cons_43 (l : List Nat) : unquotePlus (43 :: l) = 32 :: unquotePlus l := by
  rcases l with _ | ⟨c, _ | ⟨d, l⟩⟩ <;> rfl

lemma unquotePlus_cons_plain (b : Nat) (l : List Nat) (h43 : b ≠ 43) (h37 : b ≠ 37) :
    unquotePlus (b :: l) = b :: unquotePlus l := by
  rcases l with _ | ⟨c, _ | ⟨d, l⟩⟩
  · simp [unquotePlus, h43]
  · simp [unquotePlus, h43, h37]
  · simp [unquotePlus, h43, h37]

lemma unquotePlus_escape (a c : Nat) (l : List Nat) (x y : Nat)
    (hx : hexVal a = some x) (hy : hexVal c = some y) :
    unquotePlus (37 :: a :: c :: l) = (16 * x + y) :: unquotePlus l := by
  simp [unquotePlus, hx, hy]

lemma unquote_quoteByte (b : Nat) (hb : b < 256) (t : List Nat) :
    unquotePlus (quotePlusByte b ++ t) = b :: unquotePlus t := by
  unfold quotePlusByte
  by_cases hs : isAlwaysSafe b = true
  · have hne := safe_not_special b hs
    simp only [hs, if_true, List.cons_append, List.nil_append]
    exact unquotePlus_cons_plain b t hne.2.2.2.2.1 hne.2.2.2.2.2
  · simp only [hs, if_false, Bool.false_eq_true]
    by_cases h32 : b = 32
    · subst h32
      simp only [beq_self_eq_true, if_true, List.cons_append, List.nil_append,
        unquotePlus_cons_43]
    · have hb16 : b / 16 < 16 := by omega
      have hbm : b % 16 < 16 := by omega
      have h32x : ¬((b == 32) = true) := by simpa using h32
      simp only [if_neg h32x, List.cons_append, List.nil_append]
      rw [unquotePlus_escape _ _ _ _ _ (hexVal_hexDigitChar _ hb16)
        (hexVal_hexDigitChar _ hbm)]
      congr 1
      omega

lemma unquote_quote_append (s t : List Nat) (hb : ∀ b ∈ s, b < 256) :
    unquotePlus (quotePlus s ++ t) = s ++ unquotePlus t := by
  induction s with
  | nil => simp [quotePlus]
  | cons b s ih =>
    have hb' : ∀ x ∈ s, x < 256 := fun x hx => hb x (List.mem_cons_of_mem _ hx)
    have hblt : b < 256 := hb b (List.mem_cons_self _ _)
    rw [quotePlus_cons, List.append_assoc, unquote_quoteByte b hblt, ih hb']
    rfl

lemma unquote_quote (s : List Nat) (hb : ∀ b ∈ s, b < 256) :
    unquotePlus (quotePlus s) = s := by
  have h := unquote_quote_append s [] hb
  rw [List.append_nil, unquotePlus_nil, List.append_nil] at h
  exact h

lemma quotePlusByte_mem (b c : Nat) (hb : b < 256) (hc : c ∈ quotePlusByte b) :
    c ≠ 35 ∧ c ≠ 63 ∧ c ≠ 38 ∧ c ≠ 61 := by
  unfold quotePlusByte at hc
  by_cases hs : isAlwaysSafe b = true
  · simp only [hs, if_true, List.mem_singleton] at hc
    subst hc
    exact ⟨(safe_not_special _ hs).1, (safe_not_special _ hs).2.1,
      (safe_not_special _ hs).2.2.1, (safe_not_special _ hs).2.2.2.1⟩
  · simp only [hs, if_false, Bool.false_eq_true] at hc
    by_cases h32 : b = 32
    · subst h32
      simp only [beq_self_eq_true, if_true, List.mem_singleton] at hc
      subst hc
      exact ⟨by decide, by decide, by decide, by decide⟩
    · have hb16 : b / 16 < 16 := by omega
      have hbm : b % 16 < 16 := by omega
      have h32x : ¬((b == 32) = true) := by simpa using h32
      simp only [if_neg h32x, List.mem_cons,
        List.not_mem_nil, or_false] at hc
      rcases hc with rfl | rfl | rfl
      · exact ⟨by decide, by decide, by decide, by decide⟩
      · have h := safe_not_special _ (hexDigitChar_safe _ hb16)
        exact ⟨h.1, h.2.1, h.2.2.1, h.2.2.2.1⟩
      · have h := safe_not_special _ (hexDigitChar_safe _ hbm)
        exact ⟨h.1, h.2.1, h.2.2.1, h.2.2.2.1⟩

lemma quotePlus_mem (s : List Nat) (hb : ∀ b ∈ s, b < 256) (c : Nat)
    (hc : c ∈ quotePlus s) : c ≠ 35 ∧ c ≠ 63 ∧ c ≠ 38 ∧ c ≠ 61 := by
  induction s with
  | nil => simp [quotePlus] at hc
  | cons b s ih =>
    rw [quotePlus_cons, List.mem_append] at hc
    rcases hc with hc | hc
    · exact quotePlusByte_mem b c (hb b (List.mem_cons_self _ _)) hc
    · exact ih (fun x hx => hb x (List.mem_cons_of_mem _ hx)) hc

lemma unquotePlus_ne_nil (b : Nat) (l : List Nat) : unquotePlus (b :: l) ≠ [] := by
  rcases l with _ | ⟨c, _ | ⟨d, l⟩⟩
  · simp only [unquotePlus]
    split <;> simp
  · simp only [unquotePlus]
    split
    · simp
    · split <;> simp
  · simp only [unquotePlus]
    split
    · simp
    · split
      · split <;> simp
      · simp

lemma hexVal_lt (b x : Nat) (h : hexVal b = some x) : x < 16 := by
  unfold hexVal at h
  split at h
  · simp only [Option.some.injEq] at h; omega
  · split at h
    · simp only [Option.some.injEq] at h; omega
    · split at h
      · simp only [Option.some.injEq] at h; omega
      · cases h

lemma unquotePlus_bytes_bounded :
    ∀ n l, List.length l ≤ n → (∀ b ∈ l, b < 256) → ∀ c ∈ unquotePlus l, c < 256 := by
  intro n
  induction n with
  | zero =>
    intro l hl _ c hc
    rw [List.length_eq_zero.mp (Nat.le_zero.mp hl)] at hc
    simp [unquotePlus] at hc
  | succ n ih =>
    intro l hl hb c hc
    rcases l with _ | ⟨b, l₂⟩
    · simp [unquotePlus] at hc
    · have hl₂ : l₂.length ≤ n := by simpa using hl
      have hb₂ : ∀ x ∈ l₂, x < 256 := fun x hx => hb x (List.mem_cons_of_mem _ hx)
      by_cases h43 : b = 43
      · subst h43
        rw [unquotePlus_cons_43] at hc
        rcases List.mem_cons.mp hc with rfl | hc
        · omega
        · exact ih l₂ hl₂ hb₂ c hc
      · by_cases h37 : b = 37
        · subst h37
          rcases l₂ with _ | ⟨a, l₃⟩
          · have heq : unquotePlus [37] = [37] := by simp [unquotePlus]
            rw [heq] at hc
            simp only [List.mem_singleton] at hc
            omega
          · rcases l₃ with _ | ⟨d, l₄⟩
            · have heq : unquotePlus [37, a] = 37 :: unquotePlus [a] := by
                simp [unquotePlus]
              rw [heq] at hc
              rcases List.mem_cons.mp hc with rfl | hc
              · omega
              · exact ih [a] hl₂ hb₂ c hc
            · rcases hva : hexVal a with _ | x
              · have heq : unquotePlus (37 :: a :: d :: l₄)
                    = 37 :: unquotePlus (a :: d :: l₄) := by
                  simp [unquotePlus, hva]
                rw [heq] at hc
                rcases List.mem_cons.mp hc with rfl | hc
                · omega
                · exact ih (a :: d :: l₄) hl₂ hb₂ c hc
              · rcases hvd : hexVal d with _ | y
                · have heq : unquotePlus (37 :: a :: d :: l₄)
                      = 37 :: unquotePlus (a :: d :: l₄) := by
                    simp [unquotePlus, hva, hvd]
                  rw [heq] at hc
                  rcases List.mem_cons.mp hc with rfl | hc
                  · omega
                  · exact ih (a :: d :: l₄) hl₂ hb₂ c hc
                · rw [unquotePlus_escape a d l₄ x y hva hvd] at hc
                  have hx := hexVal_lt a x hva
                  have hy := hexVal_lt d y hvd
                  rcases List.mem_cons.mp hc with rfl | hc
                  · omega
                  · refine ih l₄ ?_ (fun z hz => hb₂ z (by simp [hz])) c hc
                    simp only [List.length_cons] at hl₂
                    omega
        · rw [unquotePlus_cons_plain b l₂ h43 h37] at hc
          rcases List.mem_cons.mp hc with rfl | hc
          · exact hb c (List.mem_cons_self _ _)
          · exact ih l₂ hl₂ hb₂ c hc

lemma unquotePlus_bytes (l : List Nat) (h : ∀ b ∈ l, b < 256) :
    ∀ c ∈ unquotePlus l, c < 256 :=
  unquotePlus_bytes_bounded l.length l le_rfl h

/-! ### Splitting and joining -/

lemma sfb_none (sep : Nat) (l : List Nat) (h : sep ∉ l) : splitFirstByte sep l = none := by
  induction l with
  | nil => rfl
  | cons b l ih =>
    have hb : b ≠ sep := fun hx => h (hx ▸ List.mem_cons_self _ _)
    have hl : sep ∉ l := fun hx => h (List.mem_cons_of_mem _ hx)
    simp only [splitFirstByte, beq_iff_eq, if_neg hb, ih hl]

lemma sfb_pre (sep : Nat) (p r : List Nat) (hp : sep ∉ p) :
    splitFirstByte sep (p ++ sep :: r) = some (p, r) := by
  induction p with
  | nil => simp [splitFirstByte]
  | cons b p ih =>
    have hb : b ≠ sep := fun hx => hp (hx ▸ List.mem_cons_self _ _)
    have hp' : sep ∉ p := fun hx => hp (List.mem_cons_of_mem _ hx)
    have hb' : ¬((b == sep) = true) := by simpa using hb
    rw [List.cons_append]
    simp only [splitFirstByte, if_neg hb']
    rw [ih hp']

lemma sfb_decomp (sep : Nat) (l p r : List Nat) (h : splitFirstByte sep l = some (p, r)) :
    l = p ++ sep :: r ∧ sep ∉ p := by
  induction l generalizing p with
  | nil => simp [splitFirstByte] at h
  | cons b l ih =>
    simp only [splitFirstByte, beq_iff_eq] at h
    by_cases hb : b = sep
    · rw [if_pos hb] at h
      simp only [Option.some.injEq, Prod.mk.injEq] at h
      rw [← h.1, ← h.2, hb]
      exact ⟨rfl, List.not_mem_nil sep⟩
    · rw [if_neg hb] at h
      rcases hx : splitFirstByte sep l with _ | ⟨p', r'⟩
      · rw [hx] at h
        cases h
      · rw [hx] at h
        simp only [Option.some.injEq, Prod.mk.injEq] at h
        obtain ⟨h1, h2⟩ := h
        subst h2
        have hd := ih p' hx
        rw [← h1]
        refine ⟨by rw [List.cons_append, ← hd.1], ?_⟩
        intro hmem
        rcases List.mem_cons.mp hmem with hmem | hmem
        · exact hb hmem.symm
        · exact hd.2 hmem

lemma sfb_none_not_mem (sep : Nat) (l : List Nat) (h : splitFirstByte sep l = none) :
    sep ∉ l := by
  induction l with
  | nil => simp
  | cons b l ih =>
    simp only [splitFirstByte, beq_iff_eq] at h
    by_cases hb : b = sep
    · rw [if_pos hb] at h
      cases h
    · rw [if_neg hb] at h
      rcases hx : splitFirstByte sep l with _ | pr
      · intro hmem
        rcases List.mem_cons.mp hmem with hmem | hmem
        · exact hb hmem.symm
        · exact ih hx hmem
      · rw [hx] at h
        cases h

lemma splitOn_no_sep (sep : Nat) (f : List Nat) (h : sep ∉ f) :
    splitOnByte sep f = [f] := by
  induction f with
  | nil => rfl
  | cons b f ih =>
    have hb : b ≠ sep := fun hx => h (hx ▸ List.mem_cons_self _ _)
    have hf : sep ∉ f := fun hx => h (List.mem_cons_of_mem _ hx)
    simp only [splitOnByte, beq_iff_eq, if_neg hb, ih hf]

lemma splitOn_append (sep : Nat) (f rest : List Nat) (h : sep ∉ f) :
    splitOnByte sep (f ++ sep :: rest) = f :: splitOnByte sep rest := by
  induction f with
  | nil => simp [splitOnByte]
  | cons b f ih =>
    have hb : b ≠ sep := fun hx => h (hx ▸ List.mem_cons_self _ _)
    have hf : sep ∉ f := fun hx => h (List.mem_cons_of_mem _ hx)
    have hb' : ¬((b == sep) = true) := by simpa using hb
    rw [List.cons_append]
    simp only [splitOnByte, if_neg hb']
    rw [ih hf]

lemma splitOn_joinSep (sep : Nat) (fs : List (List Nat)) (hfs : fs ≠ [])
    (h : ∀ f ∈ fs, sep ∉ f) : splitOnByte sep (joinSep sep fs) = fs := by
  induction fs with
  | nil => exact absurd rfl hfs
  | cons f fs ih =>
    rcases fs with _ | ⟨g, gs⟩
    · exact splitOn_no_sep sep f (h f (List.mem_cons_self _ _))
    · have hj : joinSep sep (f :: g :: gs) = f ++ sep :: joinSep sep (g :: gs) := rfl
      rw [hj, splitOn_append sep f _ (h f (List.mem_cons_self _ _))]
      rw [ih (by simp) (fun x hx => h x (List.mem_cons_of_mem _ hx))]

lemma joinSep_mem (sep : Nat) (fs : List (List Nat)) (c : Nat)
    (hc : c ∈ joinSep sep fs) : c = sep ∨ ∃ f ∈ fs, c ∈ f := by
  induction fs with
  | nil => simp [joinSep] at hc
  | cons f fs ih =>
    rcases fs with _ | ⟨g, gs⟩
    · exact Or.inr ⟨f, List.mem_cons_self _ _, hc⟩
    · have hj : joinSep sep (f :: g :: gs) = f ++ sep :: joinSep sep (g :: gs) := rfl
      rw [hj, List.mem_append, List.mem_cons] at hc
      rcases hc with hc | hc | hc
      · exact Or.inr ⟨f, List.mem_cons_self _ _, hc⟩
      · exact Or.inl hc
      · rcases ih hc with hs | ⟨f', hf', hcf⟩
        · exact Or.inl hs
        · exact Or.inr ⟨f', List.mem_cons_of_mem _ hf', hcf⟩

lemma mem_splitOnByte (sep : Nat) (l : List Nat) (f : List Nat)
    (hf : f ∈ splitOnByte sep l) (c : Nat) (hc : c ∈ f) : c ∈ l := by
  induction l generalizing f with
  | nil =>
    simp only [splitOnByte, List.mem_singleton] at hf
    subst hf
    cases hc
  | cons b l ih =>
    simp only [splitOnByte, beq_iff_eq] at hf
    by_cases hb : b = sep
    · rw [if_pos hb] at hf
      rcases List.mem_cons.mp hf with rfl | hf
      · cases hc
      · exact List.mem_cons_of_mem _ (ih f hf hc)
    · rw [if_neg hb] at hf
      rcases hx : splitOnByte sep l with _ | ⟨g, gs⟩
      · rw [hx] at hf
        simp only [List.mem_singleton] at hf
        subst hf
        rcases List.mem_cons.mp hc with rfl | hc
        · exact List.mem_cons_self _ _
        · cases hc
      · rw [hx] at hf
        rcases List.mem_cons.mp hf with rfl | hf
        · rcases List.mem_cons.mp hc with rfl | hc
          · exact List.mem_cons_self _ _
          · exact List.mem_cons_of_mem _ (ih g (hx ▸ List.mem_cons_self _ _) hc)
        · exact List.mem_cons_of_mem _ (ih f (hx ▸ List.mem_cons_of_mem _ hf) hc)

/-! ### parse_qs after urlencode -/

/-- The flat (key, value) pairs of a grouped dictionary, in encoding order. -/
def flatPairs (d : List (List Nat × List (List Nat))) : List (List Nat × List Nat) :=
  d.foldr (fun kv acc => kv.2.map (fun v => (kv.1, v)) ++ acc) []

def keysOf (d : List (List Nat × List (List Nat))) : List (List Nat) := d.map (·.1)

/-- A well-formed dictionary entry: bounded key bytes, a non-empty value
group, and non-empty bounded values — the invariants `parse_qs` guarantees. -/
def EntryOk (kv : List Nat × List (List Nat)) : Prop :=
  (∀ c ∈ kv.1, c < 256) ∧ kv.2 ≠ [] ∧ ∀ v ∈ kv.2, (∀ c ∈ v, c < 256) ∧ v ≠ []

lemma qsFields_cons (kv : List Nat × List (List Nat)) (d : List (List Nat × List (List Nat))) :
    qsFields (kv :: d)
      = kv.2.map (fun v => quotePlus kv.1 ++ 61 :: quotePlus v) ++ qsFields d := rfl

lemma flatPairs_cons (kv : List Nat × List (List Nat)) (d : List (List Nat × List (List Nat))) :
    flatPairs (kv :: d) = kv.2.map (fun v => (kv.1, v)) ++ flatPairs d := rfl

lemma qsFields_eq_map (d : List (List Nat × List (List Nat))) :
    qsFields d = (flatPairs d).map (fun kv => quotePlus kv.1 ++ 61 :: quotePlus kv.2) := by
  induction d with
  | nil => rfl
  | cons kv d ih =>
    rw [qsFields_cons, flatPairs_cons, List.map_append, List.map_map, ih]
    rfl

lemma flatPairs_mem (d : List (List Nat × List (List Nat)))
    (kv : List Nat × List Nat) (h : kv ∈ flatPairs d) :
    ∃ e ∈ d, kv.1 = e.1 ∧ kv.2 ∈ e.2 := by
  induction d with
  | nil => simp [flatPairs] at h
  | cons e d ih =>
    rw [flatPairs_cons, List.mem_append] at h
    rcases h with h | h
    · rcases List.mem_map.mp h with ⟨v, hv, hkv⟩
      exact ⟨e, List.mem_cons_self _ _, by rw [← hkv], by rw [← hkv]; exact hv⟩
    · rcases ih h with ⟨e', he', hf⟩
      exact ⟨e', List.mem_cons_of_mem _ he', hf⟩

lemma qsFields_amp_free (d : List (List Nat × List (List Nat)))
    (hok : ∀ kv ∈ d, EntryOk kv) : ∀ f ∈ qsFields d, (38 : Nat) ∉ f := by
  intro f hf
  rw [qsFields_eq_map] at hf
  rcases List.mem_map.mp hf with ⟨kv, hkv, henc⟩
  rcases flatPairs_mem d kv hkv with ⟨e, he, h1, h2⟩
  intro hmem
  rw [← henc, List.mem_append, List.mem_cons] at hmem
  have hek := (hok e he).1
  have hev := ((hok e he).2.2 kv.2 h2).1
  rcases hmem with hmem | hmem | hmem
  · exact (quotePlus_mem kv.1 (h1 ▸ hek) 38 hmem).2.2.1 rfl
  · cases hmem
  · exact (quotePlus_mem kv.2 hev 38 hmem).2.2.1 rfl

lemma filterMap_congr_some {α : Type} (l : List α) (f : α → Option α)
    (h : ∀ a ∈ l, f a = some a) : l.filterMap f = l := by
  induction l with
  | nil => rfl
  | cons a l ih =>
    rw [List.filterMap_cons, h a (List.mem_cons_self _ _),
      ih (fun x hx => h x (List.mem_cons_of_mem _ hx))]

lemma qsFields_ne_nil (kv : List Nat × List (List Nat)) (d : List (List Nat × List (List Nat)))
    (hv : kv.2 ≠ []) : qsFields (kv :: d) ≠ [] := by
  rw [qsFields_cons]
  intro h
  rcases List.append_eq_nil.mp h with ⟨h1, _⟩
  exact hv (List.map_eq_nil_iff.mp h1)

lemma parseQsl_urlencode (d : List (List Nat × List (List Nat)))
    (hok : ∀ kv ∈ d, EntryOk kv) :
    parseQsl (urlencodeQs d) = flatPairs d := by
  rcases d with _ | ⟨kv0, d'⟩
  · rfl
  · have hne : qsFields (kv0 :: d') ≠ [] :=
      qsFields_ne_nil kv0 d' (hok kv0 (List.mem_cons_self _ _)).2.1
    have hfree := qsFields_amp_free (kv0 :: d') hok
    show ((splitOnByte 38 (joinSep 38 (qsFields (kv0 :: d')))).filterMap _) = _
    rw [splitOn_joinSep 38 _ hne hfree, qsFields_eq_map, List.filterMap_map]
    apply filterMap_congr_some
    intro kv hkv
    rcases flatPairs_mem _ kv hkv with ⟨e, he, h1, h2⟩
    have hek : ∀ c ∈ kv.1, c < 256 := h1 ▸ (hok e he).1
    have hev := (hok e he).2.2 kv.2 h2
    have h61 : (61 : Nat) ∉ quotePlus kv.1 := fun hx =>
      (quotePlus_mem kv.1 hek 61 hx).2.2.2 rfl
    have hqvne : quotePlus kv.2 ≠ [] := quotePlus_ne_nil kv.2 hev.2
    show (if (quotePlus kv.1 ++ 61 :: quotePlus kv.2).isEmpty then none
      else match splitFirstByte 61 (quotePlus kv.1 ++ 61 :: quotePlus kv.2) with
        | none => none
        | some (n, v) =>
          if v.isEmpty then none else some (unquotePlus n, unquotePlus v)) = some kv
    have hemp : (quotePlus kv.1 ++ 61 :: quotePlus kv.2).isEmpty = false := by
      cases h : quotePlus kv.1 <;> simp [h]
    rw [if_neg (by simp [hemp]), sfb_pre 61 _ _ h61]
    show (if (quotePlus kv.2).isEmpty = true then none
      else some (unquotePlus (quotePlus kv.1), unquotePlus (quotePlus kv.2))) = some kv
    rw [if_neg (by simp [List.isEmpty_eq_false.mpr hqvne]),
      unquote_quote kv.1 hek, unquote_quote kv.2 hev.1]

/-! ### Grouping: `foldl qsInsert` rebuilds the dictionary -/

lemma qsInsert_append_new (acc : List (List Nat × List (List Nat))) (k v : List Nat)
    (h : k ∉ keysOf acc) : qsInsert acc k v = acc ++ [(k, [v])] := by
  induction acc with
  | nil => rfl
  | cons e acc ih =>
    have hk : e.1 ≠ k := fun hx => h (by rw [← hx]; exact List.mem_cons_self _ _)
    have h' : k ∉ keysOf acc := fun hx => h (List.mem_cons_of_mem _ hx)
    show qsInsert (e :: acc) k v = _
    rcases e with ⟨k', vs⟩
    simp only [qsInsert, if_neg hk, List.cons_append]
    rw [ih h']

lemma qsInsert_append_last (acc : List (List Nat × List (List Nat))) (k : List Nat)
    (ws : List (List Nat)) (v : List Nat) (h : k ∉ keysOf acc) :
    qsInsert (acc ++ [(k, ws)]) k v = acc ++ [(k, ws ++ [v])] := by
  induction acc with
  | nil => simp [qsInsert]
  | cons e acc ih =>
    have hk : e.1 ≠ k := fun hx => h (by rw [← hx]; exact List.mem_cons_self _ _)
    have h' : k ∉ keysOf acc := fun hx => h (List.mem_cons_of_mem _ hx)
    rcases e with ⟨k', vs⟩
    simp only [List.cons_append, qsInsert, if_neg hk]
    show (k', vs) :: qsInsert (acc ++ [(k, ws)]) k v = (k', vs) :: (acc ++ [(k, ws ++ [v])])
    rw [ih h']

lemma foldl_ins_sameKey (k : List Nat) (vs : List (List Nat))
    (acc : List (List Nat × List (List Nat))) (ws : List (List Nat))
    (h : k ∉ keysOf acc) :
    List.foldl (fun d kv => qsInsert d kv.1 kv.2) (acc ++ [(k, ws)])
      (vs.map (fun v => (k, v))) = acc ++ [(k, ws ++ vs)] := by
  induction vs generalizing ws with
  | nil => simp
  | cons v vs ih =>
    rw [List.map_cons, List.foldl_cons]
    show List.foldl _ (qsInsert (acc ++ [(k, ws)]) k v) _ = _
    rw [qsInsert_append_last acc k ws v h, ih (ws ++ [v])]
    simp

lemma foldl_ins_flat (d : List (List Nat × List (List Nat))) :
    ∀ acc, (keysOf d).Nodup → (∀ key ∈ keysOf d, key ∉ keysOf acc) →
    (∀ kv ∈ d, kv.2 ≠ []) →
    List.foldl (fun dd kv => qsInsert dd kv.1 kv.2) acc (flatPairs d) = acc ++ d := by
  induction d with
  | nil => intro acc _ _ _; simp [flatPairs]
  | cons e d ih =>
    intro acc hnd hdisj hvs
    rcases e with ⟨k, vs⟩
    rw [flatPairs_cons, List.foldl_append]
    have hkacc : k ∉ keysOf acc := hdisj k (List.mem_cons_self _ _)
    have hstep : List.foldl (fun dd kv => qsInsert dd kv.1 kv.2) acc
        (vs.map (fun v => (k, v))) = acc ++ [(k, vs)] := by
      rcases vs with _ | ⟨v, vtl⟩
      · exact absurd rfl (hvs (k, []) (List.mem_cons_self _ _))
      · rw [List.map_cons, List.foldl_cons]
        show List.foldl _ (qsInsert acc k v) _ = _
        rw [qsInsert_append_new acc k v hkacc, foldl_ins_sameKey k vtl acc [v] hkacc]
        rfl
    rw [hstep]
    have hnd' : (keysOf d).Nodup := (List.nodup_cons.mp hnd).2
    have hknotd : k ∉ keysOf d := (List.nodup_cons.mp hnd).1
    have hdisj' : ∀ key ∈ keysOf d, key ∉ keysOf (acc ++ [(k, vs)]) := by
      intro key hkey hmem
      have : keysOf (acc ++ [(k, vs)]) = keysOf acc ++ [k] := by
        simp [keysOf]
      rw [this, List.mem_append, List.mem_singleton] at hmem
      rcases hmem with hmem | rfl
      · exact hdisj key (List.mem_cons_of_mem _ hkey) hmem
      · exact hknotd hkey
    rw [ih (acc ++ [(k, vs)]) hnd' hdisj'
      (fun kv hkv => hvs kv (List.mem_cons_of_mem _ hkv))]
    simp

lemma parseQs_urlencode (d : List (List Nat × List (List Nat)))
    (hok : ∀ kv ∈ d, EntryOk kv) (hnd : (keysOf d).Nodup) :
    parseQs (urlencodeQs d) = d := by
  show (parseQsl (urlencodeQs d)).foldl _ [] = d
  rw [parseQsl_urlencode d hok]
  have := foldl_ins_flat d [] hnd (by simp [keysOf])
    (fun kv hkv => (hok kv hkv).2.1)
  simpa using this

/-! ### Invariants of `parse_qs` output -/

lemma parseQsl_entries (q : List Nat) (hq : ∀ b ∈ q, b < 256) :
    ∀ kv ∈ parseQsl q, (∀ c ∈ kv.1, c < 256) ∧ (∀ c ∈ kv.2, c < 256) ∧ kv.2 ≠ [] := by
  intro kv hkv
  simp only [parseQsl, List.mem_filterMap] at hkv
  obtain ⟨field, hfield, hstep⟩ := hkv
  split at hstep
  · cases hstep
  · split at hstep
    · cases hstep
    · next n w heq =>
      split at hstep
      · cases hstep
      · next hwemp =>
        have hdec := sfb_decomp 61 field n w heq
        have hfb : ∀ c ∈ field, c < 256 :=
          fun c hc => hq c (mem_splitOnByte 38 q field hfield c hc)
        have hnb : ∀ c ∈ n, c < 256 := fun c hc =>
          hfb c (by rw [hdec.1]; exact List.mem_append_left _ hc)
        have hwb : ∀ c ∈ w, c < 256 := fun c hc =>
          hfb c (by
            rw [hdec.1]
            exact List.mem_append_right _ (List.mem_cons_of_mem _ hc))
        have hwne : w ≠ [] := by
          intro hx
          rw [hx] at hwemp
          exact hwemp rfl
        injection hstep with hstep
        rw [← hstep]
        refine ⟨unquotePlus_bytes n hnb, unquotePlus_bytes w hwb, ?_⟩
        rcases w with _ | ⟨b, w⟩
        · exact absurd rfl hwne
        · exact unquotePlus_ne_nil b w

lemma qsInsert_entryOk (d : List (List Nat × List (List Nat))) (k v : List Nat)
    (hd : ∀ kv ∈ d, EntryOk kv) (hk : ∀ c ∈ k, c < 256)
    (hv : (∀ c ∈ v, c < 256) ∧ v ≠ []) :
    ∀ kv ∈ qsInsert d k v, EntryOk kv := by
  induction d with
  | nil =>
    intro kv hkv
    simp only [qsInsert, List.mem_singleton] at hkv
    subst hkv
    refine ⟨hk, by simp, ?_⟩
    intro v' hv'
    simp only [List.mem_singleton] at hv'
    subst hv'
    exact hv
  | cons e d ih =>
    rcases e with ⟨k', vs⟩
    intro kv hkv
    simp only [qsInsert] at hkv
    by_cases hkk : k' = k
    · rw [if_pos hkk] at hkv
      rcases List.mem_cons.mp hkv with rfl | hkv
      · have he := hd (k', vs) (List.mem_cons_self _ _)
        refine ⟨he.1, by simp, ?_⟩
        intro v' hv'
        rcases List.mem_append.mp hv' with h | h
        · exact he.2.2 v' h
        · simp only [List.mem_singleton] at h
          subst h
          exact hv
      · exact hd kv (List.mem_cons_of_mem _ hkv)
    · rw [if_neg hkk] at hkv
      rcases List.mem_cons.mp hkv with rfl | hkv
      · exact hd (k', vs) (List.mem_cons_self _ _)
      · exact ih (fun x hx => hd x (List.mem_cons_of_mem _ hx)) kv hkv

lemma foldl_ins_entryOk (prs : List (List Nat × List Nat)) :
    ∀ acc, (∀ kv ∈ acc, EntryOk kv) →
    (∀ pr ∈ prs, (∀ c ∈ pr.1, c < 256) ∧ (∀ c ∈ pr.2, c < 256) ∧ pr.2 ≠ []) →
    ∀ kv ∈ List.foldl (fun d kv => qsInsert d kv.1 kv.2) acc prs, EntryOk kv := by
  induction prs with
  | nil => intro acc hacc _; simpa using hacc
  | cons pr prs ih =>
    intro acc hacc hprs
    rw [List.foldl_cons]
    have hpr := hprs pr (List.mem_cons_self _ _)
    exact ih (qsInsert acc pr.1 pr.2)
      (qsInsert_entryOk acc pr.1 pr.2 hacc hpr.1 ⟨hpr.2.1, hpr.2.2⟩)
      (fun x hx => hprs x (List.mem_cons_of_mem _ hx))

lemma parseQs_entryOk (q : List Nat) (hq : ∀ b ∈ q, b < 256) :
    ∀ kv ∈ parseQs q, EntryOk kv :=
  foldl_ins_entryOk (parseQsl q) [] (by simp) (parseQsl_entries q hq)

lemma keysOf_qsInsert_mem (d : List (List Nat × List (List Nat))) (k v : List Nat)
    (h : k ∈ keysOf d) : keysOf (qsInsert d k v) = keysOf d := by
  induction d with
  | nil => simp [keysOf] at h
  | cons e d ih =>
    rcases e with ⟨k', vs⟩
    simp only [qsInsert]
    by_cases hkk : k' = k
    · rw [if_pos hkk]
      rfl
    · rw [if_neg hkk]
      have h' : k ∈ keysOf d := by
        rcases List.mem_cons.mp h with h | h
        · exact absurd h.symm hkk
        · exact h
      show k' :: keysOf (qsInsert d k v) = k' :: keysOf d
      rw [ih h']

lemma keysOf_qsInsert_new (d : List (List Nat × List (List Nat))) (k v : List Nat)
    (h : k ∉ keysOf d) : keysOf (qsInsert d k v) = keysOf d ++ [k] := by
  rw [qsInsert_append_new d k v h]
  simp [keysOf]

lemma nodup_foldl_ins (prs : List (List Nat × List Nat)) :
    ∀ acc, (keysOf acc).Nodup →
    (keysOf (List.foldl (fun d kv => qsInsert d kv.1 kv.2) acc prs)).Nodup := by
  induction prs with
  | nil => intro acc h; simpa using h
  | cons pr prs ih =>
    intro acc hnd
    rw [List.foldl_cons]
    apply ih
    by_cases hmem : pr.1 ∈ keysOf acc
    · rw [keysOf_qsInsert_mem acc pr.1 pr.2 hmem]
      exact hnd
    · rw [keysOf_qsInsert_new acc pr.1 pr.2 hmem, List.nodup_append]
      refine ⟨hnd, List.nodup_singleton _, ?_⟩
      intro a ha hb
      simp only [List.mem_singleton] at hb
      subst hb
      exact hmem ha

lemma parseQs_keys_nodup (q : List Nat) : (keysOf (parseQs q)).Nodup :=
  nodup_foldl_ins (parseQsl q) [] (by simp [keysOf])

lemma hasKeyQs_false_iff (d : List (List Nat × List (List Nat))) (k : List Nat) :
    hasKeyQs d k = false ↔ k ∉ keysOf d := by
  rw [← Bool.not_eq_true]
  simp only [hasKeyQs, List.any_eq_true, beq_iff_eq, keysOf, List.mem_map, not_exists]

/-! ### URL split/join facts -/

lemma stripOffsetGo_subset : ∀ f l, ∀ c ∈ stripOffsetGo f l, c ∈ l := by
  intro f
  induction f with
  | zero =>
    intro l c hc
    rcases l with _ | ⟨b, l⟩
    · exact hc
    · exact hc
  | succ f ih =>
    intro l c hc
    rcases l with _ | ⟨b, l⟩
    · exact hc
    · simp only [stripOffsetGo] at hc
      split at hc
      · split at hc
        · rcases List.mem_cons.mp hc with rfl | hc
          · exact List.mem_cons_self _ _
          · exact List.mem_cons_of_mem _ (ih l c hc)
        · have hsub : c ∈ (l.drop 9).dropWhile isDigitB := by
            simpa using ih _ c hc
          have h1 : c ∈ l.drop 9 := (List.dropWhile_sublist _).subset hsub
          exact List.mem_cons_of_mem _ (List.mem_of_mem_drop h1)
      · rcases List.mem_cons.mp hc with rfl | hc
        · exact List.mem_cons_self _ _
        · exact List.mem_cons_of_mem _ (ih l c hc)

lemma stripOffset_subset (l : List Nat) : ∀ c ∈ stripOffset l, c ∈ l :=
  stripOffsetGo_subset l.length l

lemma urlSplit3_facts (u : List Nat) :
    35 ∉ (urlSplit3 u).1 ∧ 63 ∉ (urlSplit3 u).1 ∧
    (∀ c ∈ (urlSplit3 u).1, c ∈ u) ∧ (∀ c ∈ (urlSplit3 u).2.1, c ∈ u) := by
  rcases h35 : splitFirstByte 35 u with _ | ⟨pre, frag⟩
  · have h35n := sfb_none_not_mem 35 u h35
    rcases h63 : splitFirstByte 63 u with _ | ⟨a, b⟩
    · have e : urlSplit3 u = (u, [], none) := by
        simp [urlSplit3, h35, h63]
      rw [e]
      exact ⟨h35n, sfb_none_not_mem 63 u h63, fun c hc => hc, fun c hc => by cases hc⟩
    · obtain ⟨hu, h63a⟩ := sfb_decomp 63 u a b h63
      have e : urlSplit3 u = (a, b, none) := by
        simp [urlSplit3, h35, h63]
      rw [e]
      refine ⟨fun hm => h35n (by rw [hu]; exact List.mem_append_left _ hm), h63a,
        fun c hc => by rw [hu]; exact List.mem_append_left _ hc,
        fun c hc => by rw [hu]; exact List.mem_append_right _ (List.mem_cons_of_mem _ hc)⟩
  · obtain ⟨hu, h35p⟩ := sfb_decomp 35 u pre frag h35
    rcases h63 : splitFirstByte 63 pre with _ | ⟨a, b⟩
    · have e : urlSplit3 u = (pre, [], some frag) := by
        simp [urlSplit3, h35, h63]
      rw [e]
      exact ⟨h35p, sfb_none_not_mem 63 pre h63,
        fun c hc => by rw [hu]; exact List.mem_append_left _ hc, fun c hc => by cases hc⟩
    · obtain ⟨hpre, h63a⟩ := sfb_decomp 63 pre a b h63
      have e : urlSplit3 u = (a, b, some frag) := by
        simp [urlSplit3, h35, h63]
      rw [e]
      have hamem : ∀ c ∈ a, c ∈ u := fun c hc => by
        rw [hu, hpre]
        exact List.mem_append_left _ (List.mem_append_left _ hc)
      refine ⟨fun hm => h35p (by rw [hpre]; exact List.mem_append_left _ hm), h63a,
        hamem, fun c hc => by
          rw [hu, hpre]
          exact List.mem_append_left _ (List.mem_append_right _ (List.mem_cons_of_mem _ hc))⟩

lemma urlSplit3_join (base q : List Nat) (frag : Option (List Nat))
    (h35b : 35 ∉ base) (h63b : 63 ∉ base) (h35q : 35 ∉ q) (h63q : 63 ∉ q) :
    (urlSplit3 (urlJoinQ base q frag)).1 = base ∧
    (urlSplit3 (urlJoinQ base q frag)).2.1 = q := by
  have hcore : ∀ tail35 : List Nat,
      (urlSplit3 (base ++ 63 :: q)).1 = base ∧ (urlSplit3 (base ++ 63 :: q)).2.1 = q := by
    intro _
    have h35n : splitFirstByte 35 (base ++ 63 :: q) = none := by
      apply sfb_none
      intro hm
      rcases List.mem_append.mp hm with hm | hm
      · exact h35b hm
      · rcases List.mem_cons.mp hm with hm | hm
        · cases hm
        · exact h35q hm
    have e : urlSplit3 (base ++ 63 :: q) = (base, q, none) := by
      simp [urlSplit3, h35n, sfb_pre 63 base q h63b]
    rw [e]
    exact ⟨rfl, rfl⟩
  rcases frag with _ | f
  · have : urlJoinQ base q none = base ++ 63 :: q := by
      simp [urlJoinQ]
    rw [this]
    exact hcore []
  · by_cases hf : f.isEmpty
    · have : urlJoinQ base q (some f) = base ++ 63 :: q := by
        simp [urlJoinQ, hf]
      rw [this]
      exact hcore []
    · have hjoin : urlJoinQ base q (some f) = (base ++ 63 :: q) ++ 35 :: f := by
        simp [urlJoinQ, hf]
      rw [hjoin]
      have h35qq : 35 ∉ base ++ 63 :: q := by
        intro hm
        rcases List.mem_append.mp hm with hm | hm
        · exact h35b hm
        · rcases List.mem_cons.mp hm with hm | hm
          · cases hm
          · exact h35q hm
      have hsp : splitFirstByte 35 (base ++ 63 :: (q ++ 35 :: f))
          = some (base ++ 63 :: q, f) := by
        have h := sfb_pre 35 (base ++ 63 :: q) f h35qq
        simpa [List.append_assoc] using h
      have e : urlSplit3 ((base ++ 63 :: q) ++ 35 :: f) = (base, q, some f) := by
        simp [urlSplit3, List.append_assoc, hsp, sfb_pre 63 base q h63b]
      rw [e]
      exact ⟨rfl, rfl⟩

lemma urlencodeQs_no_sep (d : List (List Nat × List (List Nat)))
    (hok : ∀ kv ∈ d, EntryOk kv) : ∀ c ∈ urlencodeQs d, c ≠ 35 ∧ c ≠ 63 := by
  intro c hc
  rcases joinSep_mem 38 _ c hc with rfl | ⟨f, hf, hcf⟩
  · exact ⟨by decide, by decide⟩
  · rw [qsFields_eq_map] at hf
    rcases List.mem_map.mp hf with ⟨kv, hkv, henc⟩
    rcases flatPairs_mem d kv hkv with ⟨e, he, h1, h2⟩
    rw [← henc] at hcf
    rcases List.mem_append.mp hcf with hm | hm
    · have := quotePlus_mem kv.1 (h1 ▸ (hok e he).1) c hm
      exact ⟨this.1, this.2.1⟩
    · rcases List.mem_cons.mp hm with rfl | hm
      · exact ⟨by decide, by decide⟩
      · have := quotePlus_mem kv.2 ((hok e he).2.2 kv.2 h2).1 c hm
        exact ⟨this.1, this.2.1⟩

/-! ### Claim C3 -/

/-- Core behaviour of `add_utm_tracking_to_url`, shared by the C3 and C9
theorems: branch characterisation plus the exact parsed value of the
re-encoded query. -/
lemma addUtm_core (url p : List Nat) (hp : p ≠ [])
    (hurl : ∀ b ∈ url, b < 256) (hpb : ∀ b ∈ p, b < 256) :
    (hasKeyQs (parseQs (urlSplit3 (stripOffset url)).2.1) utmKey = true →
      addUtmTrackingToUrl url p = stripOffset url) ∧
    (hasKeyQs (parseQs (urlSplit3 (stripOffset url)).2.1) utmKey = false →
      (urlSplit3 (addUtmTrackingToUrl url p)).1 = (urlSplit3 (stripOffset url)).1 ∧
      parseQs (urlSplit3 (addUtmTrackingToUrl url p)).2.1
        = parseQs (urlSplit3 (stripOffset url)).2.1 ++ [(utmKey, [p])]) := by
  have hpe : ¬(p.isEmpty = true) := by
    cases p
    · exact absurd rfl hp
    · simp
  constructor
  · intro hkey
    show (if p.isEmpty = true then stripOffset url
      else if hasKeyQs (parseQs (urlSplit3 (stripOffset url)).2.1) utmKey = true then
        stripOffset url
      else urlJoinQ (urlSplit3 (stripOffset url)).1
        (urlencodeQs (parseQs (urlSplit3 (stripOffset url)).2.1 ++ [(utmKey, [p])]))
        (urlSplit3 (stripOffset url)).2.2) = stripOffset url
    rw [if_neg hpe, if_pos hkey]
  · intro hkey
    have hub : ∀ b ∈ stripOffset url, b < 256 :=
      fun b hb => hurl b (stripOffset_subset url b hb)
    obtain ⟨hf35, hf63, _, hqmem⟩ := urlSplit3_facts (stripOffset url)
    have hqb : ∀ b ∈ (urlSplit3 (stripOffset url)).2.1, b < 256 :=
      fun b hb => hub b (hqmem b hb)
    have hok : ∀ kv ∈ parseQs (urlSplit3 (stripOffset url)).2.1 ++ [(utmKey, [p])],
        EntryOk kv := by
      intro kv hkv
      rcases List.mem_append.mp hkv with h | h
      · exact parseQs_entryOk _ hqb kv h
      · simp only [List.mem_singleton] at h
        subst h
        refine ⟨(by decide : ∀ c ∈ utmKey, c < 256), by simp, ?_⟩
        intro v hv
        simp only [List.mem_singleton] at hv
        subst hv
        exact ⟨hpb, hp⟩
    have hnotin : utmKey ∉ keysOf (parseQs (urlSplit3 (stripOffset url)).2.1) :=
      (hasKeyQs_false_iff _ _).mp hkey
    have hnd : (keysOf (parseQs (urlSplit3 (stripOffset url)).2.1
        ++ [(utmKey, [p])])).Nodup := by
      have he : keysOf (parseQs (urlSplit3 (stripOffset url)).2.1 ++ [(utmKey, [p])])
          = keysOf (parseQs (urlSplit3 (stripOffset url)).2.1) ++ [utmKey] := by
        simp [keysOf]
      rw [he, List.nodup_append]
      refine ⟨parseQs_keys_nodup _, List.nodup_singleton _, ?_⟩
      intro a ha hb
      simp only [List.mem_singleton] at hb
      subst hb
      exact hnotin ha
    have hsep := urlencodeQs_no_sep _ hok
    have h35e : 35 ∉ urlencodeQs (parseQs (urlSplit3 (stripOffset url)).2.1
        ++ [(utmKey, [p])]) := fun hm => (hsep 35 hm).1 rfl
    have h63e : 63 ∉ urlencodeQs (parseQs (urlSplit3 (stripOffset url)).2.1
        ++ [(utmKey, [p])]) := fun hm => (hsep 63 hm).2 rfl
    have hjoin := urlSplit3_join (urlSplit3 (stripOffset url)).1
      (urlencodeQs (parseQs (urlSplit3 (stripOffset url)).2.1 ++ [(utmKey, [p])]))
      (urlSplit3 (stripOffset url)).2.2 hf35 hf63 h35e h63e
    have hstep : addUtmTrackingToUrl url p
        = urlJoinQ (urlSplit3 (stripOffset url)).1
            (urlencodeQs (parseQs (urlSplit3 (stripOffset url)).2.1 ++ [(utmKey, [p])]))
            (urlSplit3 (stripOffset url)).2.2 := by
      show (if p.isEmpty = true then stripOffset url
        else if hasKeyQs (parseQs (urlSplit3 (stripOffset url)).2.1) utmKey = true then
          stripOffset url
        else urlJoinQ (urlSplit3 (stripOffset url)).1
          (urlencodeQs (parseQs (urlSplit3 (stripOffset url)).2.1 ++ [(utmKey, [p])]))
          (urlSplit3 (stripOffset url)).2.2) = _
      rw [if_neg hpe, if_neg (by simp [hkey])]
    rw [hstep]
    exact ⟨hjoin.1, by rw [hjoin.2, parseQs_urlencode _ hok hnd]⟩

/-- Claim C3 (amended): for every URL and non-empty tracking parameter (over
byte strings), `add_utm_tracking_to_url` first strips `/(offset)/<digits>`
segments; if the stripped URL's parsed query already contains a `utm_source`
key the stripped URL is returned unchanged; otherwise the base of the URL is
preserved and the re-encoded query parses back to exactly the original
grouped parameters (grouped by key, first-occurrence key order, per-key value
order and multiplicity preserved) with `utm_source=<param>` appended at the
end.  The claim's stronger reading — that the raw query text keeps its
original order and multiplicity — is false: `urlencode(parse_qs(q))` regroups
interleaved keys and drops blank-valued parameters (see the counterexample). -/
theorem claim_C3_amended (url p : List Nat) (hp : p ≠ [])
    (hurl : ∀ b ∈ url, b < 256) (hpb : ∀ b ∈ p, b < 256) :
    (hasKeyQs (parseQs (urlSplit3 (stripOffset url)).2.1) utmKey = true →
      addUtmTrackingToUrl url p = stripOffset url) ∧
    (hasKeyQs (parseQs (urlSplit3 (stripOffset url)).2.1) utmKey = false →
      (urlSplit3 (addUtmTrackingToUrl url p)).1 = (urlSplit3 (stripOffset url)).1 ∧
      parseQs (urlSplit3 (addUtmTrackingToUrl url p)).2.1
        = parseQs (urlSplit3 (stripOffset url)).2.1 ++ [(utmKey, [p])]) :=
  addUtm_core url p hp hurl hpb

/-- Claim C3 counterexample: the claim as stated requires all existing query
parameters to be preserved with their original order and multiplicity, which
would force the output `http://e.com/p?a=1&b=&a=3&utm_source=x`; the code
regroups the interleaved `a` keys and drops the blank-valued `b=`, producing
`http://e.com/p?a=1&a=3&utm_source=x`. -/
theorem claim_C3_counterexample :
    addUtmTrackingToUrl (strB "http://e.com/p?a=1&b=&a=3") (strB "x")
      = strB "http://e.com/p?a=1&a=3&utm_source=x" ∧
    addUtmTrackingToUrl (strB "http://e.com/p?a=1&b=&a=3") (strB "x")
      ≠ strB "http://e.com/p?a=1&b=&a=3&utm_source=x" := by
  constructor
  · decide
  · decide

/-- Claim C3 witness: the amended theorem applied at a concrete URL and
parameter. -/
theorem claim_C3_witness :
    (strB "x" ≠ [] ∧ (∀ b ∈ strB "http://e.com/p?a=1", b < 256) ∧
      (∀ b ∈ strB "x", b < 256)) ∧
    ((hasKeyQs (parseQs (urlSplit3 (stripOffset (strB "http://e.com/p?a=1"))).2.1)
        utmKey = true →
      addUtmTrackingToUrl (strB "http://e.com/p?a=1") (strB "x")
        = stripOffset (strB "http://e.com/p?a=1")) ∧
    (hasKeyQs (parseQs (urlSplit3 (stripOffset (strB "http://e.com/p?a=1"))).2.1)
        utmKey = false →
      (urlSplit3 (addUtmTrackingToUrl (strB "http://e.com/p?a=1") (strB "x"))).1
        = (urlSplit3 (stripOffset (strB "http://e.com/p?a=1"))).1 ∧
      parseQs (urlSplit3 (addUtmTrackingToUrl (strB "http://e.com/p?a=1") (strB "x"))).2.1
        = parseQs (urlSplit3 (stripOffset (strB "http://e.com/p?a=1"))).2.1
          ++ [(utmKey, [strB "x"])])) :=
  ⟨⟨by decide, by decide, by decide⟩,
    claim_C3_amended (strB "http://e.com/p?a=1") (strB "x")
      (by decide) (by decide) (by decide)⟩

/-! ### Claim C9 (URL-level part): `add_utm_tracking_to_url` never duplicates
the `utm_source` key -/

/-- Dictionary lookup, `d.get(k)` on the grouped query dictionary. -/
def qsLookup (d : List (List Nat × List (List Nat))) (k : List Nat) :
    Option (List (List Nat)) :=
  (d.find? (fun pr => pr.1 == k)).map (fun pr => pr.2)

/-- Number of `utm_source` values in a query string, as `parse_qs` sees it. -/
def utmMult (q : List Nat) : Nat :=
  match qsLookup (parseQs q) utmKey with
  | some vs => vs.length
  | none => 0

lemma hasKey_find?_none (d : List (List Nat × List (List Nat))) (k : List Nat)
    (h : hasKeyQs d k = false) : d.find? (fun pr => pr.1 == k) = none := by
  rw [List.find?_eq_none]
  intro x hx hpk
  have hx2 : d.any (fun pr => pr.1 == k) = true := List.any_eq_true.mpr ⟨x, hx, hpk⟩
  rw [hasKeyQs] at h
  rw [h] at hx2
  cases hx2

lemma hasKey_find?_some (d : List (List Nat × List (List Nat))) (k : List Nat)
    (h : hasKeyQs d k = true) :
    ∃ kv, d.find? (fun pr => pr.1 == k) = some kv ∧ kv ∈ d ∧ kv.1 = k := by
  rw [hasKeyQs, List.any_eq_true] at h
  obtain ⟨x, hx, hpk⟩ := h
  have hs : (d.find? (fun pr => pr.1 == k)).isSome :=
    List.find?_isSome.mpr ⟨x, hx, hpk⟩
  rcases ho : d.find? (fun pr => pr.1 == k) with _ | kv
  · rw [ho] at hs
    cases hs
  · refine ⟨kv, ho, List.mem_of_find?_eq_some ho, ?_⟩
    have hp := List.find?_some ho
    simpa using hp

lemma find?_append_of_none {α : Type} (p : α → Bool) (l₁ l₂ : List α)
    (h : l₁.find? p = none) : (l₁ ++ l₂).find? p = l₂.find? p := by
  induction l₁ with
  | nil => rfl
  | cons a l ih =>
    rw [List.find?_eq_none] at h
    have ha : p a = false := by
      have := h a (List.mem_cons_self _ _)
      cases hpa : p a
      · rfl
      · exact absurd hpa this
    rw [List.cons_append, List.find?_cons, ha]
    exact ih (List.find?_eq_none.mpr (fun x hx => h x (List.mem_cons_of_mem _ hx)))

/-- Claim C9 (amended, URL level): for every URL and non-empty tracking
parameter, `add_utm_tracking_to_url` yields a URL carrying exactly one
`utm_source` entry when the (offset-stripped) input had none, and exactly the
input's `utm_source` multiplicity otherwise — it never adds a duplicate
`utm_source` key to the URL it processes.  (Text-level idempotence of
`enrich_links_with_utm` fails for URLs with an unmatched `)` — see the
counterexample — because the second pass's markdown regex re-extracts a
shorter URL there.) -/
theorem claim_C9_amended (u p : List Nat) (hp : p ≠ [])
    (hu : ∀ b ∈ u, b < 256) (hpb : ∀ b ∈ p, b < 256) :
    utmMult (urlSplit3 (addUtmTrackingToUrl u p)).2.1
      = (if utmMult (urlSplit3 (stripOffset u)).2.1 = 0 then 1
         else utmMult (urlSplit3 (stripOffset u)).2.1) := by
  have hcore := addUtm_core u p hp hu hpb
  have hub : ∀ b ∈ stripOffset u, b < 256 :=
    fun b hb => hu b (stripOffset_subset u b hb)
  obtain ⟨_, _, _, hqmem⟩ := urlSplit3_facts (stripOffset u)
  have hqb : ∀ b ∈ (urlSplit3 (stripOffset u)).2.1, b < 256 :=
    fun b hb => hub b (hqmem b hb)
  rcases hk : hasKeyQs (parseQs (urlSplit3 (stripOffset u)).2.1) utmKey with _ | _
  · -- no utm_source present: one entry is appended
    have h2 := hcore.2 hk
    have hfindnone := hasKey_find?_none _ utmKey hk
    have hmult0 : utmMult (urlSplit3 (stripOffset u)).2.1 = 0 := by
      rw [utmMult, qsLookup, hfindnone]
      rfl
    rw [hmult0, if_pos rfl, utmMult, qsLookup, h2.2,
      find?_append_of_none _ _ _ hfindnone]
    rfl
  · -- utm_source already present: the URL is returned unchanged
    have h1 := hcore.1 hk
    obtain ⟨kv, hfind, hmem, hkey⟩ := hasKey_find?_some _ utmKey hk
    have hok := parseQs_entryOk _ hqb kv hmem
    have hpos : 0 < kv.2.length := List.length_pos.mpr hok.2.1
    have hmm : utmMult (urlSplit3 (stripOffset u)).2.1 = kv.2.length := by
      unfold utmMult qsLookup
      rw [hfind]
      rfl
    rw [h1, hmm, if_neg (by omega)]

/-! ### A small backtracking regex engine

Models Python `re` semantics for the patterns this plugin uses: leftmost
match, greedy/lazy quantifiers with backtracking, non-overlapping `re.sub` /
`re.findall` scanning.  The engine is fuel-driven (every recursive step burns
one unit) so that it is structurally recursive and evaluates inside the
kernel; wrappers supply fuel far exceeding the backtracking depth any of the
embedded patterns can reach on the scanned text. -/

inductive RE where
  | eps : RE
  | lit : Nat → RE
  | cls : Bool → List Nat → RE
  | seq : RE → RE → RE
  | alt : RE → RE → RE
  | star : Bool → RE → RE
  | grp : Nat → RE → RE

/-- One-byte character class: `cls false set` matches bytes in `set`,
`cls true set` (a negated class) matches bytes outside it. -/
def clsMatch (neg : Bool) (set : List Nat) (b : Nat) : Bool :=
  if neg then !(set.contains b) else set.contains b

/-- Captured groups: group index paired with the captured bytes
(most recent capture first, as Python keeps the last repetition). -/
def Caps : Type := List (Nat × List Nat)

def capGet (caps : Caps) (i : Nat) : List Nat :=
  match List.find? (fun pr => pr.1 == i) caps with
  | some pr => pr.2
  | none => []

/-- CPS matcher.  Alternation and greedy/lazy stars try branches in Python's
preference order; the continuation decides whether the overall match
succeeds, so the first success found is the regex's match. -/
def mrun : Nat → RE → List Nat → Caps →
    (List Nat → Caps → Option (List Nat × Caps)) → Option (List Nat × Caps)
  | 0, _, _, _, _ => none
  | f + 1, re, s, caps, k =>
    match re with
    | .eps => k s caps
    | .lit b =>
      match s with
      | [] => none
      | c :: s' => if c == b then k s' caps else none
    | .cls neg set =>
      match s with
      | [] => none
      | c :: s' => if clsMatch neg set c then k s' caps else none
    | .seq r1 r2 => mrun f r1 s caps (fun s' c' => mrun f r2 s' c' k)
    | .alt r1 r2 =>
      match mrun f r1 s caps k with
      | some res => some res
      | none => mrun f r2 s caps k
    | .star lz r =>
      let cont := fun s' c' =>
        if s'.length < s.length then mrun f (.star lz r) s' c' k else k s' c'
      if lz then
        match k s caps with
        | some res => some res
        | none => mrun f r s caps cont
      else
        match mrun f r s caps cont with
        | some res => some res
        | none => k s caps
    | .grp i r =>
      mrun f r s caps (fun s' c' => k s' ((i, s.take (s.length - s'.length)) :: c'))

/-- Fuel that generously dominates the backtracking depth of the embedded
patterns on `s`. -/
def matcherFuel (s : List Nat) : Nat := 2000 + 200 * s.length

/-- Attempt a match anchored at the start of `s`; returns the rest of the
input and the captures. -/
def reMatchAt (re : RE) (s : List Nat) : Option (List Nat × Caps) :=
  mrun (matcherFuel s) re s [] (fun rest caps => some (rest, caps))

/-- `re.sub` with a (stateful) replacement function: scan left to right,
non-overlapping, continuing after each match. -/
def reSubGo {σ : Type} (re : RE) (repl : List Nat → Caps → σ → List Nat × σ) :
    Nat → List Nat → σ → List Nat × σ
  | _, [], st => ([], st)
  | 0, s, st => (s, st)
  | f + 1, s, st =>
    match reMatchAt re s with
    | some (rest, caps) =>
      if rest.length < s.length then
        let m := s.take (s.length - rest.length)
        let r1 := repl m caps st
        let r2 := reSubGo re repl f rest r1.2
        (r1.1 ++ r2.1, r2.2)
      else
        match s with
        | [] => ([], st)
        | b :: s' =>
          let r2 := reSubGo re repl f s' st
          (b :: r2.1, r2.2)
    | none =>
      match s with
      | [] => ([], st)
      | b :: s' =>
        let r2 := reSubGo re repl f s' st
        (b :: r2.1, r2.2)

def reSub {σ : Type} (re : RE) (repl : List Nat → Caps → σ → List Nat × σ)
    (s : List Nat) (st : σ) : List Nat × σ :=
  reSubGo re repl s.length s st

/-- `re.findall`: all non-overlapping matches, left to right, as
(matched bytes, captures) pairs. -/
def reFindAllGo (re : RE) : Nat → List Nat → List (List Nat × Caps)
  | _, [] => []
  | 0, _ => []
  | f + 1, s =>
    match reMatchAt re s with
    | some (rest, caps) =>
      if rest.length < s.length then
        (s.take (s.length - rest.length), caps) :: reFindAllGo re f rest
      else
        match s with
        | [] => []
        | _ :: s' => reFindAllGo re f s'
    | none =>
      match s with
      | [] => []
      | _ :: s' => reFindAllGo re f s'

def reFindAll (re : RE) (s : List Nat) : List (List Nat × Caps) :=
  reFindAllGo re s.length s

/-! ### The concrete patterns of `enrich_links_with_utm` and the inline-URL
extraction, transcribed from the regex literals in the source. -/

def rCat (l : List RE) : RE := l.foldr .seq .eps

def rStr (s : String) : RE := rCat ((strB s).map .lit)

def rPlus (r : RE) : RE := .seq r (.star false r)

def rOpt (r : RE) : RE := .alt r .eps

/-- `https?://` -/
def reHttpPre : RE := rCat [rStr "http", rOpt (.lit 115), rStr "://"]

/-- The markdown-link pattern of `enrich_links_with_utm`:
`\[([^\]]*)\]\(\s*(https?://[^\s)]*(?:\([^)]*\)[^\s)]*)*[^\s)]*)(\s*(?:["\x27].*?["\x27])?\s*)\)` -/
def mdLinkRe : RE := rCat [
  .lit 91,
  .grp 1 (.star false (.cls true [93])),
  .lit 93, .lit 40,
  .star false (.cls false wsBytes),
  .grp 2 (rCat [reHttpPre,
    .star false (.cls true (wsBytes ++ [41])),
    .star false (rCat [.lit 40, .star false (.cls true [41]), .lit 41,
      .star false (.cls true (wsBytes ++ [41]))]),
    .star false (.cls true (wsBytes ++ [41]))]),
  .grp 3 (rCat [.star false (.cls false wsBytes),
    rOpt (rCat [.cls false [34, 39], .star true (.cls true [10]), .cls false [34, 39]]),
    .star false (.cls false wsBytes)]),
  .lit 41]

/-- The bare-URL pattern: `https?://[^\s]*(?:\([^)]*\)[^\s]*)*[^\s]*` -/
def plainUrlRe : RE := rCat [reHttpPre,
  .star false (.cls true wsBytes),
  .star false (rCat [.lit 40, .star false (.cls true [41]), .lit 41,
    .star false (.cls true wsBytes)]),
  .star false (.cls true wsBytes)]

/-- The inline-extraction markdown pattern of `before_cat_sends_message`:
`\[([^\]]*)\]\((https?://[^\s)]+)\)` -/
def mdFindRe : RE := rCat [
  .lit 91,
  .grp 1 (.star false (.cls true [93])),
  .lit 93, .lit 40,
  .grp 2 (rCat [reHttpPre, rPlus (.cls true (wsBytes ++ [41]))]),
  .lit 41]

/-- The inline-extraction bare-URL pattern: `https?://[^\s<>\[\]()]+` -/
def plainFindRe : RE := rCat [reHttpPre, rPlus (.cls true (wsBytes ++ strB "<>[]()"))]

/-! ### `enrich_links_with_utm` -/

def punctBytes : List Nat := strB ".,!?;"

/-- The trailing-punctuation stripping loop: returns the trimmed URL and the
preserved suffix. -/
def trimTrailingPunct (url : List Nat) : List Nat × List Nat :=
  let r := url.reverse
  ((r.dropWhile (fun b => punctBytes.contains b)).reverse,
   (r.takeWhile (fun b => punctBytes.contains b)).reverse)

def countByte (l : List Nat) (b : Nat) : Nat := (l.filter (· == b)).length

/-- The parenthesis-balancing loop: while the URL ends in `)` and has more
`)` than `(`, move the trailing `)` to the suffix. -/
def balanceParens : Nat → List Nat × List Nat → List Nat × List Nat
  | 0, us => us
  | f + 1, (url, suffix) =>
    if url.getLast? = some 41 ∧ countByte url 40 < countByte url 41 then
      balanceParens f (url.dropLast, 41 :: suffix)
    else (url, suffix)

/-- `base_url.split("?")[0]` style helper. -/
def takeBeforeByte (sep : Nat) (l : List Nat) : List Nat :=
  match splitFirstByte sep l with
  | some (b, _) => b
  | none => l

/-- Python `str.capitalize()` (ASCII model): first byte uppercased, the rest
lowercased. -/
def capitalizeB (w : List Nat) : List Nat :=
  match w with
  | [] => []
  | b :: r => (if 97 ≤ b ∧ b ≤ 122 then b - 32 else b) ::
      r.map (fun c => if 65 ≤ c ∧ c ≤ 90 then c + 32 else c)

/-- The smart-naming logic of `convert_plain_url_to_markdown`. -/
def genName (url enhanced : List Nat) : List Nat :=
  let base := takeBeforeByte 35 (takeBeforeByte 63 url)
  let parts := splitOnByte 47 (rstripByte 47 base)
  let name0 :=
    if parts.length > 3 ∧ parts.getLastD [] ≠ [] then parts.getLastD []
    else if parts.length > 4 ∧ parts.getD (parts.length - 2) [] ≠ [] then
      parts.getD (parts.length - 2) []
    else if parts.length > 2 then parts.getD 2 [] else url
  let name1 := name0.map (fun b => if b = 95 ∨ b = 45 then 32 else b)
  let name2 := joinSep 32 ((pySplitWs name1).map capitalizeB)
  if name2 = [] ∨ name2.length < 3 then enhanced else name2

/-- `convert_plain_url_to_markdown` from the source. -/
def convertPlainUrl (utm m : List Nat) : List Nat :=
  let t1 := trimTrailingPunct m
  let t2 := balanceParens t1.1.length t1
  let enhanced := addUtmTrackingToUrl t2.1 utm
  let name := genName t2.1 enhanced
  91 :: (name ++ strB "](" ++ enhanced ++ 41 :: t2.2)

/-- Placeholder for a protected markdown link.  The source uses a fresh
`uuid4` hex token; this model numbers the placeholders instead — like the
uuid, the token contains no `http`, no brackets and no whitespace, so the
scanning behaviour is identical on text that does not already contain such
placeholder tokens. -/
def mdPlaceholder (n : Nat) : List Nat :=
  strB "__MARKDOWN_LINK_" ++ (Nat.toDigits 10 n).map Char.toNat ++ strB "__"

/-- `store_markdown_link` from the source (counter and collected links are
the threaded state). -/
def mdReplace (utm : List Nat) (m : List Nat) (caps : Caps)
    (st : Nat × List (List Nat × List Nat)) :
    List Nat × (Nat × List (List Nat × List Nat)) :=
  let linkText := capGet caps 1
  let url := capGet caps 2
  let title := capGet caps 3
  let enhanced := addUtmTrackingToUrl url utm
  let ph := mdPlaceholder st.1
  (ph, (st.1 + 1,
    st.2 ++ [(ph, 91 :: (linkText ++ strB "](" ++ enhanced ++ title ++ [41]))]))

/-- `enrich_links_with_utm` (`src/utils.py` and
`src/context_guardian_enricher.py`): protect markdown links behind
placeholders (adding tracking to their URLs), convert bare URLs to markdown
links with smart naming, then restore the placeholders. -/
def enrichLinksWithUtm (text utm : List Nat) : List Nat :=
  if utm.isEmpty then text
  else
    let md := reSub mdLinkRe (mdReplace utm) text (0, [])
    let t2 := (reSub plainUrlRe (fun m _ st => (convertPlainUrl utm m, st)) md.1 ()).1
    md.2.2.foldl (fun t pr => replaceAll pr.1 pr.2 t) t2

/-- The inline-URL extraction of `before_cat_sends_message`: markdown-link
URLs and bare URLs found in the message text, with trailing punctuation
stripped.  (The source collects them into a set; only membership is
consumed, which this ordered list models.) -/
def extractInlineUrls (text : List Nat) : List (List Nat) :=
  let mdUrls := (reFindAll mdFindRe text).map (fun pr => capGet pr.2 2)
  let plainUrls := (reFindAll plainFindRe text).map (fun pr => pr.1)
  (mdUrls ++ plainUrls).map (fun url => (trimTrailingPunct url).1)

example : enrichLinksWithUtm (strB "Check https://site.com/page/reports, thanks.") (strB "x")
    = strB "Check [Reports](https://site.com/page/reports?utm_source=x), thanks." := by
  decide

example : enrichLinksWithUtm (strB "see [Doc](http://a.c/d \x22t\x22) now") (strB "x")
    = strB "see [Doc](http://a.c/d?utm_source=x \x22t\x22) now" := by decide

example : enrichLinksWithUtm (strB "u http://a.c/(x)/y?q=1. end") (strB "x")
    = strB "u [http://a.c/(x)/y?q=1&utm_source=x](http://a.c/(x)/y?q=1&utm_source=x). end"
    := by decide

/-- Claim C9 counterexample: enrichment is not idempotent once `utm_source`
is present.  For the bare URL `http://a.c/)ab/page` the first pass produces a
markdown link whose URL contains an unmatched `)`; the second pass's
markdown regex re-extracts only `http://a.c/` (stopping at that `)`), finds
no `utm_source` in its query, and appends a second one — the rendered text
goes from one `utm_source` occurrence to two on the same URL run. -/
theorem claim_C9_counterexample :
    enrichLinksWithUtm (strB "http://a.c/)ab/page") (strB "p")
      = strB "[Page](http://a.c/)ab/page?utm_source=p)" ∧
    enrichLinksWithUtm (enrichLinksWithUtm (strB "http://a.c/)ab/page") (strB "p"))
        (strB "p")
      = strB "[Page](http://a.c/?utm_source=p)ab/page?utm_source=p)" ∧
    countSub (strB "utm_source")
      (enrichLinksWithUtm (strB "http://a.c/)ab/page") (strB "p")) = 1 ∧
    countSub (strB "utm_source")
      (enrichLinksWithUtm (enrichLinksWithUtm (strB "http://a.c/)ab/page") (strB "p"))
        (strB "p")) = 2 :=
  ⟨by decide, by decide, by decide, by decide⟩

/-- Claim C9 witness: the amended (URL-level) theorem applied at a concrete
URL and parameter. -/
theorem claim_C9_witness :
    (strB "p" ≠ [] ∧ (∀ b ∈ strB "http://a.c/x", b < 256) ∧
      (∀ b ∈ strB "p", b < 256)) ∧
    utmMult (urlSplit3 (addUtmTrackingToUrl (strB "http://a.c/x") (strB "p"))).2.1
      = (if utmMult (urlSplit3 (stripOffset (strB "http://a.c/x"))).2.1 = 0 then 1
         else utmMult (urlSplit3 (stripOffset (strB "http://a.c/x"))).2.1) :=
  ⟨⟨by decide, by decide, by decide⟩,
    claim_C9_amended (strB "http://a.c/x") (strB "p") (by decide) (by decide) (by decide)⟩

/-! ### The fast-reply gate and localized default message selection
(String world: Python `len` is codepoint count, `strip` trims ASCII
whitespace) -/

/-- A value stored in the settings dictionary, with Python equality against
`0` (`0 == 0` and `False == 0` hold; strings never equal `0`), as used by
`settings.get("handle_audio", 0) == 0`. -/
inductive PyVal where
  | pInt : Int → PyVal
  | pStr : String → PyVal
  | pBool : Bool → PyVal

def pyEqZero : PyVal → Bool
  | .pInt n => n == 0
  | .pBool b => b == false
  | .pStr _ => false

/-- The settings dictionary as `load_settings` returns it: keys may be
absent (`none`); `settings.get(key, default)` is `Option.getD`. -/
structure RtSettings where
  doublePass : Option Bool := none
  utmSource : Option (List Nat) := none
  minQueryLength : Option Int := none
  maxQueryLen : Option Int := none
  minSourceChar : Option Int := none
  removeInline : Option Bool := none
  suggestionFirst : Option Bool := none
  panicEnabled : Option Bool := none
  panicText : Option String := none
  handleAudio : Option PyVal := none
  defaultMessages : Option (List (String × String)) := none
  defaultMessage : Option String := none

/-- The built-in translated defaults of `context_guardian_enricher.py` (the
copy the hooks use). -/
def DEFAULT_MESSAGES : List (String × String) := [
  ("en", "I\x27m sorry, I can\x27t help with this request. Try writing short, complete questions with one request at a time."),
  ("es", "Lo siento, no puedo ayudarte con esta solicitud. Intenta escribir preguntas cortas y completas con una sola solicitud a la vez."),
  ("fr", "Désolé, je ne peux pas vous aider pour cette demande. Essayez d\x27écrire des questions courtes et complètes, une demande à la fois."),
  ("de", "Es tut mir leid, ich kann bei dieser Anfrage nicht helfen. Versuchen Sie, kurze, vollständige Fragen zu stellen, jeweils eine Anfrage."),
  ("it", "Mi spiace, non riesco ad aiutarti per questa richiesta. Prova a scrivere domande complete e brevi con una richiesta alla volta."),
  ("pt", "Desculpe, não consigo ajudar com este pedido. Tente escrever perguntas curtas e completas, com um pedido de cada vez."),
  ("zh", "抱歉，我无法处理此请求。请尝试以一次一项请求的方式，撰写简短且完整的问题。"),
  ("ja", "申し訳ありませんが、このリクエストにはお手伝いできません。短く完結した質問を、ひとつずつ記入してください。"),
  ("ko", "죄송합니다. 이 요청에는 도움을 드릴 수 없습니다. 짧고 완전한 질문을 한 번에 하나씩 작성해 보세요."),
  ("ru", "Извините, я не могу помочь с этим запросом. Попробуйте задавать короткие и полные вопросы по одному."),
  ("ar", "عذرًا، لا أستطيع المساعدة في هذا الطلب. حاول كتابة أسئلة قصيرة ومكتملة، واطرح طلبًا واحدًا في كل مرة."),
  ("hi", "माफ़ कीजिये, मैं इस अनुरोध में मदद नहीं कर सकता। कोशिश करें कि संक्षिप्त और पूर्ण प्रश्न लिखें, एक बार में केवल एक अनुरोध।")]

def lookupA (m : List (String × String)) (k : String) : Option String :=
  (List.find? (fun pr => pr.1 == k) m).map (fun pr => pr.2)

/-- `_get_browser_lang_code_from_info`: the part of `browser_lang` before the
first `-`, lowercased; empty when `info` is not a dict with a truthy
`browser_lang` (modeled as `none` / `some ""`). -/
def browserLangCode (info : Option String) : String :=
  match info with
  | some s => if s = "" then "" else ⟨(s.data.takeWhile (· ≠ '-')).map Char.toLower⟩
  | none => ""

/-- `DEFAULT_MESSAGES["en"]`. -/
def englishDefault : String := (lookupA DEFAULT_MESSAGES "en").getD ""

/-- The tail of the fallback chain: the configured flat `default_message` if
truthy, else the built-in English string. -/
def flatOrEnglish (st : RtSettings) : String :=
  match st.defaultMessage with
  | some f => if f ≠ "" then f else englishDefault
  | none => englishDefault

/-- `select_default_message` from `context_guardian_enricher.py`. -/
def selectDefaultMessage (st : RtSettings) (info : Option String) : String :=
  let lang := browserLangCode info
  let fromOverride : Option String :=
    match st.defaultMessages with
    | some m => if lang ≠ "" then lookupA m lang else none
    | none => none
  match fromOverride with
  | some v => v
  | none =>
    if lang ≠ "" ∧ (lookupA DEFAULT_MESSAGES lang).isSome then
      (lookupA DEFAULT_MESSAGES lang).getD ""
    else
      match st.defaultMessages with
      | some m =>
        if m ≠ [] then
          match lookupA m "en" with
          | some v => if v ≠ "" then v else (m.headD ("", "")).2
          | none => (m.headD ("", "")).2
        else flatOrEnglish st
      | none => flatOrEnglish st

/-- The literal default of `settings.get("panic_button_text", ...)`. -/
def panicDefaultText : String :=
  "Sorry, I\x27m under maintenance right now. Please try again later."

structure InMsg where
  audio : Option String
  text : String
  info : Option String

/-- Oracles for the gate's external collaborators: the transcription result,
whether recall retrieved any declarative memory, and whether a form session
is active. -/
structure FastReplyEnv where
  transcription : Option String
  hasDeclarative : Bool
  formActive : Bool

def pyWsChar (c : Char) : Bool := ([32, 9, 10, 13, 11, 12] : List Nat).contains c.toNat

/-- Python `str.strip()` (ASCII whitespace model). -/
def pyStrip (s : String) : String :=
  ⟨((s.data.dropWhile pyWsChar).reverse.dropWhile pyWsChar).reverse⟩

/-- The part of `fast_reply` after the audio branch: localized default
message, panic button, length gates, recall, context/form check.  The second
component records whether memory recall was invoked. -/
def fastReplyAfterAudio (st : RtSettings) (text : String) (info : Option String)
    (env : FastReplyEnv) : Option String × Bool :=
  let defaultMsg := selectDefaultMessage st info
  if st.panicEnabled.getD false then
    (some (st.panicText.getD panicDefaultText), false)
  else
    let q := pyStrip text
    if (q.length : Int) < st.minQueryLength.getD 10 then (some defaultMsg, false)
    else if 0 < st.maxQueryLen.getD 500 ∧ st.maxQueryLen.getD 500 < (q.length : Int) then
      (some defaultMsg, false)
    else if ¬ env.hasDeclarative ∧ ¬ env.formActive then (some defaultMsg, true)
    else (none, true)

/-- `fast_reply` from `context_guardian_enricher.py`.  For audio messages the
code first checks `settings.get("handle_audio", 0) == 0` (returning the fixed
audio-unsupported reply), otherwise transcribes and, when the transcription
is truthy, replaces the message text. -/
def fastReply (st : RtSettings) (msg : InMsg) (env : FastReplyEnv) :
    Option String × Bool :=
  match msg.audio with
  | some _ =>
    if pyEqZero (st.handleAudio.getD (.pInt 0)) then
      (some "Audio input not supported.", false)
    else
      let text :=
        match env.transcription with
        | some t => if t ≠ "" then t else msg.text
        | none => msg.text
      fastReplyAfterAudio st text msg.info env
  | none => fastReplyAfterAudio st msg.text msg.info env

example : browserLangCode (some "en-US") = "en" := by decide

example : selectDefaultMessage { defaultMessage := some "flat" } (some "xx-XX") = "flat" := by
  decide

example : selectDefaultMessage {} (some "it-IT")
    = (lookupA DEFAULT_MESSAGES "it").getD "" := by decide

/-! ### Claim C1 -/

/-- Claim C1 (amended): if panic mode is enabled, `fast_reply` returns the
configured panic text for every message without an audio payload, and for
audio messages whenever the stored `handle_audio` value is not Python-equal
to `0`; memory recall is never invoked.  The audio branch, however, precedes
the panic check: when an audio payload is present and `handle_audio` is
absent or equal to `0`, the gate returns the fixed audio-unsupported reply
instead of the panic text (see the counterexample), so the panic check does
not bypass audio handling. -/
theorem claim_C1_amended (st : RtSettings) (msg : InMsg) (env : FastReplyEnv)
    (hpanic : st.panicEnabled.getD false = true)
    (hcase : msg.audio = none ∨ pyEqZero (st.handleAudio.getD (.pInt 0)) = false) :
    fastReply st msg env = (some (st.panicText.getD panicDefaultText), false) := by
  rcases msg with ⟨maudio, mtext, minfo⟩
  have hrest : ∀ text, fastReplyAfterAudio st text minfo env
      = (some (st.panicText.getD panicDefaultText), false) := by
    intro text
    unfold fastReplyAfterAudio
    rw [if_pos hpanic]
  rcases haud : maudio with _ | a
  · subst haud
    show fastReplyAfterAudio st mtext minfo env = _
    exact hrest mtext
  · subst haud
    have hz : pyEqZero (st.handleAudio.getD (.pInt 0)) = false := by
      rcases hcase with hcase | hcase
      · cases hcase
      · exact hcase
    show (if pyEqZero (st.handleAudio.getD (.pInt 0)) = true then
        (some "Audio input not supported.", false)
      else fastReplyAfterAudio st
        (match env.transcription with
         | some t => if t ≠ "" then t else mtext
         | none => mtext) minfo env) = _
    rw [if_neg (by simp [hz])]
    exact hrest _

/-- Claim C1 counterexample: panic mode enabled, an audio payload present,
and `handle_audio` absent from the stored settings — the gate answers
`Audio input not supported.`, not the configured panic text. -/
theorem claim_C1_counterexample :
    fastReply { panicEnabled := some true, panicText := some "PANIC" }
      { audio := some "data:audio/mp3;base64,xyz", text := "hello there", info := none }
      { transcription := none, hasDeclarative := true, formActive := false }
      = (some "Audio input not supported.", false) ∧
    (some "Audio input not supported." : Option String) ≠ some "PANIC" :=
  ⟨by decide, by decide⟩

/-- Claim C1 witness: the amended theorem applied to a concrete
audio-free message under panic mode. -/
theorem claim_C1_witness :
    (({ panicEnabled := some true, panicText := some "PANIC" }
        : RtSettings).panicEnabled.getD false = true ∧
      ({ audio := none, text := "hi", info := none } : InMsg).audio = none) ∧
    fastReply { panicEnabled := some true, panicText := some "PANIC" }
      { audio := none, text := "hi", info := none }
      { transcription := none, hasDeclarative := false, formActive := false }
      = (some (({ panicEnabled := some true, panicText := some "PANIC" }
          : RtSettings).panicText.getD panicDefaultText), false) :=
  ⟨⟨rfl, rfl⟩,
    claim_C1_amended _ _ _ rfl (Or.inl rfl)⟩

/-! ### Claim C7 -/

/-- Claim C7: for every message without an audio payload and with panic mode
disabled, if the stripped query text is shorter than the configured
`min_query_length`, `fast_reply` returns the localized default message and
memory recall is never invoked (the recall flag is `false`). -/
theorem claim_C7 (st : RtSettings) (msg : InMsg) (env : FastReplyEnv)
    (haudio : msg.audio = none)
    (hpanic : st.panicEnabled.getD false = false)
    (hlen : ((pyStrip msg.text).length : Int) < st.minQueryLength.getD 10) :
    fastReply st msg env = (some (selectDefaultMessage st msg.info), false) := by
  rcases msg with ⟨maudio, mtext, minfo⟩
  simp only [] at haudio hlen
  subst haudio
  show fastReplyAfterAudio st mtext minfo env = _
  unfold fastReplyAfterAudio
  rw [if_neg (by simp [hpanic]), if_pos hlen]

/-- Claim C7 witness: a five-character query against `min_query_length = 10`
(the spec's own example) short-circuits to the default message without
recall. -/
theorem claim_C7_witness :
    (({ audio := none, text := "hello", info := none } : InMsg).audio = none ∧
      (({ minQueryLength := some 10 } : RtSettings).panicEnabled.getD false = false) ∧
      ((pyStrip "hello").length : Int)
        < ({ minQueryLength := some 10 } : RtSettings).minQueryLength.getD 10) ∧
    fastReply { minQueryLength := some 10 }
      { audio := none, text := "hello", info := none }
      { transcription := none, hasDeclarative := true, formActive := false }
      = (some (selectDefaultMessage { minQueryLength := some 10 } none), false) :=
  ⟨⟨rfl, rfl, by decide⟩,
    claim_C7 _ _ _ rfl rfl (by decide)⟩

/-! ### Claim C6 -/

/-- Claim C6 (amended): localized-default-message selection follows the
priority (1) the per-language override map when the two-letter code is one
of its keys, (2) the built-in translated defaults for supported codes, then
— contrary to the claim — (2.5) when a non-empty override map is configured,
its `en` entry if non-empty else its first value, and only otherwise (3) the
configured flat fallback string when non-empty, (4) the built-in English
string.  For a locale code absent from both maps the flat fallback is reached
only when the override map is absent or empty (see the counterexample). -/
theorem claim_C6_amended (st : RtSettings) (info : Option String) :
    (∀ m v, st.defaultMessages = some m → browserLangCode info ≠ "" →
      lookupA m (browserLangCode info) = some v →
      selectDefaultMessage st info = v) ∧
    ((∀ m, st.defaultMessages = some m → lookupA m (browserLangCode info) = none) →
      ∀ b, browserLangCode info ≠ "" →
      lookupA DEFAULT_MESSAGES (browserLangCode info) = some b →
      selectDefaultMessage st info = b) ∧
    (∀ m, st.defaultMessages = some m → m ≠ [] →
      (browserLangCode info = "" ∨
        (lookupA m (browserLangCode info) = none ∧
          lookupA DEFAULT_MESSAGES (browserLangCode info) = none)) →
      selectDefaultMessage st info
        = (match lookupA m "en" with
           | some v => if v ≠ "" then v else (m.headD ("", "")).2
           | none => (m.headD ("", "")).2)) ∧
    ((st.defaultMessages = none ∨ st.defaultMessages = some []) →
      (browserLangCode info = "" ∨
        lookupA DEFAULT_MESSAGES (browserLangCode info) = none) →
      selectDefaultMessage st info = flatOrEnglish st) := by
  refine ⟨?_, ?_, ?_, ?_⟩
  · intro m v hm hlang hlook
    simp [selectDefaultMessage, hm, hlang, hlook]
  · intro hmiss b hlang hbuilt
    rcases hm : st.defaultMessages with _ | m
    · simp [selectDefaultMessage, hm, hlang, hbuilt]
    · simp [selectDefaultMessage, hm, hmiss m hm, hlang, hbuilt]
  · intro m hm hne hcase
    rcases hcase with hlang | ⟨hmiss, hbuilt⟩
    · simp [selectDefaultMessage, hm, hlang, hne]
    · by_cases hlang : browserLangCode info = ""
      · simp [selectDefaultMessage, hm, hlang, hne]
      · simp [selectDefaultMessage, hm, hmiss, hbuilt, hlang, hne]
  · intro hm hcase
    rcases hm with hm | hm
    · rcases hcase with hlang | hbuilt
      · simp [selectDefaultMessage, hm, hlang]
      · by_cases hlang : browserLangCode info = ""
        · simp [selectDefaultMessage, hm, hlang]
        · simp [selectDefaultMessage, hm, hlang, hbuilt]
    · have h0 : lookupA [] (browserLangCode info) = none := rfl
      rcases hcase with hlang | hbuilt
      · simp [selectDefaultMessage, hm, hlang, h0]
      · by_cases hlang : browserLangCode info = ""
        · simp [selectDefaultMessage, hm, hlang, h0]
        · simp [selectDefaultMessage, hm, hlang, hbuilt, h0]

/-- Claim C6 counterexample: for the unknown locale code `xx`, a configured
non-empty override map (without an `xx` or `en` entry) wins over the
configured flat fallback: the selection returns the map's first value
`ciao`, not `flat`, so unknown codes do not always fall through to the flat
fallback / built-in English. -/
theorem claim_C6_counterexample :
    selectDefaultMessage
      { defaultMessages := some [("it", "ciao")], defaultMessage := some "flat" }
      (some "xx-XX") = "ciao" ∧
    ("ciao" : String) ≠ "flat" :=
  ⟨by decide, by decide⟩

/-- Claim C6 witness: priority (1) — the override map answers for a code it
contains. -/
theorem claim_C6_witness :
    (({ defaultMessages := some [("it", "ciao")] } : RtSettings).defaultMessages
        = some [("it", "ciao")] ∧
      browserLangCode (some "it-IT") ≠ "" ∧
      lookupA [("it", "ciao")] (browserLangCode (some "it-IT")) = some "ciao") ∧
    selectDefaultMessage { defaultMessages := some [("it", "ciao")] } (some "it-IT")
      = "ciao" :=
  ⟨⟨rfl, by decide, by decide⟩,
    (claim_C6_amended { defaultMessages := some [("it", "ciao")] } (some "it-IT")).1
      [("it", "ciao")] "ciao" rfl (by decide) (by decide)⟩

/-! ### Claim C8: settings validation (`src/settings.py`) -/

/-- Python `str.lower()` (ASCII model). -/
def pyLower (s : String) : String := ⟨s.data.map Char.toLower⟩

/-- The fields of `ContextGuardianEnricherSettings`, with the defaults
declared in `src/settings.py`. -/
structure RawSettings where
  double_pass : Bool := false
  utm_source : String := ""
  min_query_length : Int := 10
  default_message : String :=
    "Sorry, I can\x27t help you. To answer adequately: • Write short, complete sentences • Express one request at a time"
  panic_button_enabled : Bool := false
  panic_button_text : String :=
    "Sorry, I\x27m under maintenance right now. Please try again later."
  use_conversation_history : Bool := true
  conversation_history_length : Int := 3
  max_query_length : Int := 1000
  max_query_len : Int := 500
  min_source_char : Int := 100
  remove_inline_links_from_sources : Bool := false
  suggestion_first : Bool := false
  handle_audio : String := "false"
  google_api_key : String := ""
  selected_model : String := "gemini-2.0-flash"
deriving DecidableEq

/-- The pydantic validators of `ContextGuardianEnricherSettings`, run in
field-declaration order: `min_query_length ≥ 0`,
`conversation_history_length ∈ [0, 10]`, `max_query_length ∈ [100, 5000]`,
`min_source_char ≥ 0`, and `handle_audio.lower() ∈ {"true", "false"}`
(normalised to lowercase).  No validator checks `max_query_len`. -/
def validateSettings (r : RawSettings) : Except String RawSettings :=
  if ¬(0 ≤ r.min_query_length) then
    .error "Minimum query length must be non-negative"
  else if ¬(0 ≤ r.conversation_history_length ∧ r.conversation_history_length ≤ 10) then
    .error "Conversation history length must be between 0 and 10"
  else if ¬(100 ≤ r.max_query_length ∧ r.max_query_length ≤ 5000) then
    .error "Maximum query length must be between 100 and 5000"
  else if ¬(0 ≤ r.min_source_char) then
    .error "Minimum source characters must be non-negative"
  else if ¬(pyLower r.handle_audio = "true" ∨ pyLower r.handle_audio = "false") then
    .error "handle_audio must be true or false"
  else .ok { r with handle_audio := pyLower r.handle_audio }

/-- Claim C8 (amended): every configuration accepted at load time satisfies
`min_query_length ≥ 0`, `conversation_history_length ∈ [0, 10]`,
`max_query_length ∈ [100, 5000]`, `min_source_char ≥ 0` and a boolean-string
`handle_audio`, and any out-of-range value of those validated fields is
rejected with a validation error — but `max_query_len` is not validated at
all: it is passed through unchanged, and a negative value is accepted (see
the counterexample). -/
theorem claim_C8_amended (r : RawSettings) :
    (∀ v, validateSettings r = .ok v →
      0 ≤ v.min_query_length ∧
      0 ≤ v.conversation_history_length ∧ v.conversation_history_length ≤ 10 ∧
      100 ≤ v.max_query_length ∧ v.max_query_length ≤ 5000 ∧
      0 ≤ v.min_source_char ∧
      (v.handle_audio = "true" ∨ v.handle_audio = "false") ∧
      v.max_query_len = r.max_query_len) ∧
    ((r.min_query_length < 0 ∨ r.conversation_history_length < 0 ∨
      10 < r.conversation_history_length ∨ r.max_query_length < 100 ∨
      5000 < r.max_query_length ∨ r.min_source_char < 0) →
      ∀ v, validateSettings r ≠ .ok v) := by
  constructor
  · intro v hv
    unfold validateSettings at hv
    split_ifs at hv with h1 h2 h3 h4 h5
    all_goals try cases hv
    exact ⟨h1, h2.1, h2.2, h3.1, h3.2, h4, h5, rfl⟩
  · intro hbad v hv
    unfold validateSettings at hv
    split_ifs at hv with h1 h2 h3 h4 h5
    all_goals try cases hv
    rcases hbad with h | h | h | h | h | h <;> omega

/-- Claim C8 counterexample: a configuration with `max_query_len = -5` (all
other fields at their defaults) passes validation and keeps the negative
value — no validator rejects it. -/
theorem claim_C8_counterexample :
    (validateSettings { max_query_len := -5 }).toOption.map (fun v => v.max_query_len)
      = some (-5) ∧ (-5 : Int) < 0 :=
  ⟨rfl, by decide⟩

/-- Claim C8 witness: a default configuration is accepted and satisfies the
validated bounds. -/
theorem claim_C8_witness :
    (validateSettings {}).toOption = some ({} : RawSettings) ∧
    (0 ≤ ({} : RawSettings).min_query_length ∧
      0 ≤ ({} : RawSettings).conversation_history_length ∧
      ({} : RawSettings).conversation_history_length ≤ 10 ∧
      100 ≤ ({} : RawSettings).max_query_length ∧
      ({} : RawSettings).max_query_length ≤ 5000 ∧
      0 ≤ ({} : RawSettings).min_source_char ∧
      (({} : RawSettings).handle_audio = "true" ∨
        ({} : RawSettings).handle_audio = "false") ∧
      ({} : RawSettings).max_query_len = ({} : RawSettings).max_query_len) :=
  ⟨rfl, (claim_C8_amended {}).1 {} rfl⟩

/-! ### Claim C2: `translate_text` (`src/language_guardian.py`) -/

/-- One candidate of a Gemini response: `content = none` models a missing
`content` key (`candidates[0]["content"]` raises `KeyError`, handled by the
retry handler); otherwise the list holds each part's `"text"` value, with
`none` for a part without one (`p.get("text", "")` defaults it to `""`). -/
structure GCand where
  content : Option (List (Option String))
deriving DecidableEq

/-- The decoded JSON body, flattened to the fields the code reads:
`error.status`, `error.message` (both behind `.get` with defaults) and
`candidates`. -/
structure GJson where
  errorStatus : Option String := none
  errorMessage : Option String := none
  candidates : Option (List GCand) := none
deriving DecidableEq

/-- One HTTP response; `json = none` means `response.json()` raises. -/
structure GResp where
  status : Nat
  json : Option GJson
deriving DecidableEq

/-- The outcome of one `requests.post` call. -/
inductive Attempt where
  | exn : Attempt
  | resp : GResp → Attempt
deriving DecidableEq

def startTag : String := "<|startoftext|>"

def endTag : String := "<|endoftext|>"

def strContains (s pat : String) : Bool := hasSub pat.data s.data

/-- First index of `pat` in `l` (`str.find` for a present pattern). -/
def idxOfSub [BEq α] (pat : List α) : List α → Option Nat
  | [] => none
  | a :: l =>
    if pat.isPrefixOf (a :: l) then some 0
    else (idxOfSub pat l).map (· + 1)

/-- Python slice `s[i:j]` (empty when `j ≤ i`). -/
def pySlice (s : String) (i j : Nat) : String := ⟨(s.data.drop i).take (j - i)⟩

/-- `"".join(p.get("text", "") for p in parts).strip()`. -/
def joinedRaw (parts : List (Option String)) : String :=
  pyStrip (parts.foldl (fun acc pt => acc ++ pt.getD "") "")

/-- `text_to_translate.split("current time")[0].strip()` — the fallback the
code uses when the delimiter tags are missing. -/
def splitCurrentTimeStrip (text : String) : String :=
  pyStrip ⟨takeBeforeSub ("current time".data) text.data⟩

/-- Processing of one model attempt inside the `for model_name in
models_to_try` loop of `translate_text`.  `none` means `continue` (try the
next model); `some r` means the loop returns `r`.  An exception anywhere in
the attempt maps to `none`: for a non-final model the handler `continue`s,
and for the final model it returns the original text — which coincides with
the post-loop fallback, so the uniform `none` is faithful. -/
def attemptStep (text : String) (a : Attempt) : Option String :=
  match a with
  | .exn => none
  | .resp r =>
    if r.status == 503 then
      match r.json with
      | some j =>
        if j.errorStatus == some "UNAVAILABLE"
            && strContains (pyLower (j.errorMessage.getD "")) "high demand" then none
        else some text
      | none => some text
    else if r.status != 200 then some text
    else
      match r.json with
      | none => none
      | some j =>
        match j.candidates with
        | some (c :: _) =>
          match c.content with
          | none => none
          | some parts =>
            let raw := joinedRaw parts
            if strContains raw startTag && strContains raw endTag then
              let si := (idxOfSub startTag.data raw.data).getD 0 + startTag.length
              let ei := (idxOfSub endTag.data raw.data).getD 0
              let t := pyStrip (pySlice raw si ei)
              some (if t = "" then text else t)
            else some (splitCurrentTimeStrip text)
        | _ => some text

/-- `translate_text`: settings-load failure and a missing API key fall back
to the original text; otherwise the two models are tried in order and the
loop's fallback is the original text. -/
def translateText (text ref apiKey : String) (loadFail : Bool) (a1 a2 : Attempt) :
    String :=
  if loadFail then text
  else if apiKey = "" then text
  else
    match attemptStep text a1 with
    | some r => r
    | none =>
      match attemptStep text a2 with
      | some r => r
      | none => text

lemma attemptStep_exn (text : String) : attemptStep text .exn = none := rfl

/-- Claim C2 (amended): `translate_text` returns the original text on every
error path — settings-load failure, missing API key, exceptions on both
attempts, a non-200/non-503 status, a 503 that is not the high-demand
retry case, a 200 response without candidates, and a tagged but empty
translation — except one: a 200 response whose joined candidate text lacks
the delimiter tags, where it returns
`text_to_translate.split("current time")[0].strip()` instead of the
original text. -/
theorem claim_C2_amended (text ref apiKey : String) (a1 a2 : Attempt)
    (hk : apiKey ≠ "") :
    (translateText text ref apiKey true a1 a2 = text) ∧
    (translateText text ref "" false a1 a2 = text) ∧
    (translateText text ref apiKey false .exn .exn = text) ∧
    (∀ st j, st ≠ 503 → st ≠ 200 →
      translateText text ref apiKey false (.resp ⟨st, j⟩) a2 = text) ∧
    (∀ j, (j.errorStatus == some "UNAVAILABLE"
        && strContains (pyLower (j.errorMessage.getD "")) "high demand") = false →
      translateText text ref apiKey false (.resp ⟨503, some j⟩) a2 = text) ∧
    (∀ j, j.candidates = none ∨ j.candidates = some [] →
      translateText text ref apiKey false (.resp ⟨200, some j⟩) a2 = text) ∧
    (∀ j c rest parts, j.candidates = some (c :: rest) → c.content = some parts →
      strContains (joinedRaw parts) startTag = true →
      strContains (joinedRaw parts) endTag = true →
      pyStrip (pySlice (joinedRaw parts)
          ((idxOfSub startTag.data (joinedRaw parts).data).getD 0 + startTag.length)
          ((idxOfSub endTag.data (joinedRaw parts).data).getD 0)) = "" →
      translateText text ref apiKey false (.resp ⟨200, some j⟩) a2 = text) ∧
    (∀ j c rest parts, j.candidates = some (c :: rest) → c.content = some parts →
      (strContains (joinedRaw parts) startTag
        && strContains (joinedRaw parts) endTag) = false →
      translateText text ref apiKey false (.resp ⟨200, some j⟩) a2
        = splitCurrentTimeStrip text) := by
  refine ⟨by simp [translateText], by simp [translateText], ?_, ?_, ?_, ?_, ?_, ?_⟩
  · simp [translateText, attemptStep, hk]
  · intro st j h503 h200
    simp [translateText, attemptStep, hk, h503, h200]
  · intro j hcond
    simp [translateText, attemptStep, hk, hcond]
  · intro j hc
    rcases hc with hc | hc <;> simp [translateText, attemptStep, hk, hc]
  · intro j c rest parts hc hcont hs he hempty
    simp [translateText, attemptStep, hk, hc, hcont, hs, he, hempty]
  · intro j c rest parts hc hcont htags
    simp [translateText, attemptStep, hk, hc, hcont, htags]

/-- Claim C2 counterexample: a 200 response whose candidate text lacks the
delimiter tags is an error path ("format is unexpected"), yet
`translate_text` does not return the original text unchanged: for
`text_to_translate = "Hi current time is 12"` it returns `"Hi"`. -/
theorem claim_C2_counterexample :
    translateText "Hi current time is 12" "r" "k" false
        (.resp ⟨200, some { candidates := some [⟨some [some "no tags"]⟩] }⟩) .exn
      = "Hi"
    ∧ ("Hi" : String) ≠ "Hi current time is 12" :=
  ⟨by decide, by decide⟩

/-- Claim C2 witness: a concrete non-200/non-503 attempt (status 404)
returns the original text. -/
theorem claim_C2_witness :
    (("k" : String) ≠ "" ∧ (404 : Nat) ≠ 503 ∧ (404 : Nat) ≠ 200) ∧
    translateText "hello" "r" "k" false (.resp ⟨404, none⟩) .exn = "hello" :=
  ⟨⟨by decide, by decide, by decide⟩,
   (claim_C2_amended "hello" "r" "k" .exn .exn (by decide)).2.2.2.1 404 none
     (by decide) (by decide)⟩

/-! ### `before_cat_sends_message` (`src/context_guardian_enricher.py`) -/

/-- A declarative-memory document: the `source` and `title` metadata entries
(`none` when the key is absent, and an empty byte string is the falsy
`""`), plus the page content. -/
structure Doc where
  source : Option (List Nat)
  title : Option (List Nat)
  pageContent : List Nat
deriving DecidableEq

/-- An intermediate source record, the dictionary
`{"url": source, "label": title or "", "length": len(doc.page_content)}`. -/
structure SRec where
  url : List Nat
  label : List Nat
  length : Nat
deriving DecidableEq

/-- The source-collection loop of `before_cat_sends_message`: walk the
memories in order and keep the first hit of each truthy `source`
(`seen_sources` is the accumulator). -/
def dedupGo : List Doc → List (List Nat) → List SRec
  | [], _ => []
  | d :: l, seen =>
    match d.source with
    | some s =>
      if s ≠ [] ∧ s ∉ seen then
        ⟨s, d.title.getD [], d.pageContent.length⟩ :: dedupGo l (s :: seen)
      else dedupGo l seen
    | none => dedupGo l seen

def dedupBySource (l : List Doc) : List SRec := dedupGo l []

/-- The source-resolution step: with `double_pass` the url-intersection of
the two deduplicated lists (primary order preserved, membership tested
against `seen_second_sources`), falling back to `sources` if non-empty and
otherwise to `second_sources`; without `double_pass`, the primary list. -/
def relevantSources (doublePass : Bool) (primary second : List Doc) :
    List SRec :=
  let sources := dedupBySource primary
  if doublePass then
    let secondSources := dedupBySource second
    let seenSecond := secondSources.map SRec.url
    let relevant := sources.filter (fun s => decide (s.url ∈ seenSecond))
    if relevant = [] then (if sources ≠ [] then sources else secondSources)
    else relevant
  else sources

/-- Spec-side dedup, written after the words of the specification (for the
C4 refinement): keep the first record of each url among the truthy-source
hits, most relevant first. -/
def specDedup : List Doc → List SRec
  | [] => []
  | d :: l =>
    match d.source with
    | some s =>
      if s = [] then specDedup l
      else
        ⟨s, d.title.getD [], d.pageContent.length⟩ ::
          (specDedup l).filter (fun r => decide (r.url ≠ s))
    | none => specDedup l

/-- Spec-side double-pass resolution, written after the words of the
specification (for the C4 refinement): the url-intersection of the
deduplicated primary and secondary hits preserving primary order; when the
intersection is empty, the deduplicated primary list if non-empty, and the
deduplicated secondary list only when the primary list is itself empty. -/
def specDoublePass (primary second : List Doc) : List SRec :=
  let S := specDedup primary
  let T := specDedup second
  let I := S.filter (fun s => decide (s.url ∈ T.map SRec.url))
  if I = [] then (if S = [] then T else S) else I

/-- One row of the final sources list: `{"url": ..., "label": ...}`. -/
structure PRec where
  url : List Nat
  label : List Nat
deriving DecidableEq

/-- The per-record processing loop: skip inline sources under
`remove_inline`, add the utm parameter to the url, truncate the label at
the first `/`, and route inline records to `prioritized_sources` under
`suggestion_first`; the pair is `(prioritized_sources, processed_sources)`
in input order. -/
def processGo (utm : List Nat) (removeInline suggFirst : Bool)
    (inline : List (List Nat)) : List SRec → List PRec × List PRec
  | [] => ([], [])
  | s :: l =>
    let isInline := decide (s.url ∈ inline)
    if isInline && removeInline then processGo utm removeInline suggFirst inline l
    else
      let pr : PRec := ⟨addUtmTrackingToUrl s.url utm, takeBeforeByte 47 s.label⟩
      let rest := processGo utm removeInline suggFirst inline l
      if isInline && suggFirst then (pr :: rest.1, rest.2)
      else (rest.1, pr :: rest.2)

/-- The pre-dedup `processed_sources` list as it stands right before the
label dedup: the length-filtered relevant sources processed in order, with
`prioritized_sources + processed_sources` under `suggestion_first`. -/
def processedCombined (st : RtSettings) (msgText : List Nat)
    (primary second : List Doc) : List PRec :=
  let utm := st.utmSource.getD []
  let removeInline := st.removeInline.getD false
  let suggFirst := st.suggestionFirst.getD false
  let relevant := (relevantSources (st.doublePass.getD false) primary second).filter
    (fun s => decide (st.minSourceChar.getD 100 ≤ (s.length : Int)))
  let inline := if removeInline || suggFirst then extractInlineUrls msgText else []
  let p := processGo utm removeInline suggFirst inline relevant
  if suggFirst then p.1 ++ p.2 else p.2

/-- The final label-dedup loop: keep the first occurrence of each non-empty
label, keep every record with an empty label. -/
def dedupLabelGo : List PRec → List (List Nat) → List PRec
  | [], _ => []
  | r :: l, seen =>
    if r.label ≠ [] ∧ r.label ∉ seen then r :: dedupLabelGo l (r.label :: seen)
    else if r.label = [] then r :: dedupLabelGo l seen
    else dedupLabelGo l seen

/-- `message.sources` as assigned by the tail of
`before_cat_sends_message`. -/
def computeSources (st : RtSettings) (msgText : List Nat)
    (primary second : List Doc) : List PRec :=
  dedupLabelGo (processedCombined st msgText primary second) []

/-- An outgoing `CatMessage`: the text, the sources list, and all the other
fields bundled as `extra`. -/
structure OutMsg (γ : Type) where
  text : List Nat
  sources : List PRec
  extra : γ
deriving DecidableEq

/-- The collaborators of `before_cat_sends_message` that the hook consults:
the language-guard verdict and the translated text it would install
(`translated` is an oracle for `translate_text` on the message text), the
active-form flag, and the declarative memories of the two passes. -/
structure SendEnv where
  isSameLang : Bool
  translated : List Nat
  activeForm : Bool
  declarative : List Doc
  second : List Doc
deriving DecidableEq

def noSourcesTag : List Nat := strB "<no_sources>"

/-- `before_cat_sends_message`: translate when the languages differ, return
early on an active form, strip the `<no_sources>` marker and return early
when it occurs, and otherwise attach the computed sources and enrich the
links of the text. -/
def beforeCatSendsMessage {γ : Type} (st : RtSettings) (env : SendEnv)
    (msg : OutMsg γ) : OutMsg γ :=
  let t0 := if env.isSameLang then msg.text else env.translated
  if env.activeForm then { msg with text := t0 }
  else if hasSub noSourcesTag t0 then
    { msg with text := replaceAll noSourcesTag [] t0 }
  else
    { msg with
      text := enrichLinksWithUtm t0 (st.utmSource.getD []),
      sources := computeSources st t0 env.declarative env.second }

example : computeSources
    { utmSource := some (strB "x"), doublePass := some true,
      minSourceChar := some 2, suggestionFirst := some true }
    (strB "see [Doc](http://a.c/d) and http://b.c/e.")
    [⟨some (strB "http://a.c/d"), some (strB "A/x"), strB "abcde"⟩,
     ⟨some [], some (strB "B"), strB "123456789"⟩,
     ⟨some (strB "http://b.c/e"), none, strB "1"⟩,
     ⟨some (strB "http://a.c/d"), some (strB "dup"), strB "123456789"⟩,
     ⟨some (strB "http://c.c/f"), some (strB "A/y"), strB "123456789"⟩]
    [⟨some (strB "http://c.c/f"), some (strB "T"), strB "123"⟩,
     ⟨some (strB "http://a.c/d"), some (strB "U"), strB "1234"⟩]
    = [⟨strB "http://a.c/d?utm_source=x", strB "A"⟩] := by decide

example : computeSources
    { utmSource := some [], minSourceChar := some 0 }
    []
    [⟨some (strB "u1"), none, []⟩,
     ⟨some (strB "u2"), some [], strB "1"⟩,
     ⟨some (strB "u1"), some (strB "z"), strB "12345"⟩]
    []
    = [⟨strB "u1", []⟩, ⟨strB "u2", []⟩] := by decide

example : computeSources
    { utmSource := some (strB "p"), doublePass := some true,
      minSourceChar := some 1, removeInline := some true }
    (strB "go http://q.c/a, now")
    [⟨some (strB "http://q.c/a"), some (strB "Qa"), strB "1234"⟩,
     ⟨some (strB "http://q.c/b"), some (strB "Qb/s"), strB "1234"⟩]
    [⟨some (strB "http://z.c/"), some (strB "Z"), strB "123456789"⟩]
    = [⟨strB "http://q.c/b?utm_source=p", strB "Qb"⟩] := by decide

lemma dedupGo_eq_filter (l : List Doc) :
    ∀ seen, dedupGo l seen
      = (specDedup l).filter (fun r => decide (r.url ∉ seen)) := by
  induction l with
  | nil => intro seen; rfl
  | cons d l ih =>
    intro seen
    rcases hs : d.source with _ | s
    · simp [dedupGo, specDedup, hs, ih seen]
    · by_cases h0 : s = []
      · simp [dedupGo, specDedup, hs, h0, ih seen]
      · by_cases hmem : s ∈ seen
        · simp [dedupGo, specDedup, hs, h0, hmem, ih seen, List.filter_cons]
          apply List.filter_congr
          intro a _
          by_cases h2 : a.url ∈ seen
          · simp [h2]
          · have h1 : a.url ≠ s := fun h => h2 (h ▸ hmem)
            simp [h1, h2]
        · simp [dedupGo, specDedup, hs, h0, hmem, ih (s :: seen),
            List.filter_cons]
          apply List.filter_congr
          intro a _
          exact Bool.and_comm _ _

lemma dedupBySource_eq (l : List Doc) : dedupBySource l = specDedup l := by
  rw [dedupBySource, dedupGo_eq_filter]
  apply List.filter_eq_self.mpr
  intro a _
  simp

/-- Claim C4: with double pass enabled, the source resolver agrees with the
spec-side description: the url-intersection of the deduplicated primary and
secondary hits preserving primary order, falling back on an empty
intersection to the deduplicated primary list when non-empty, and to the
deduplicated secondary list only when the primary list is empty. -/
theorem claim_C4 (primary second : List Doc) :
    relevantSources true primary second = specDoublePass primary second := by
  simp only [relevantSources, specDoublePass, dedupBySource_eq, if_true]
  by_cases hI : (specDedup primary).filter
      (fun s => decide (s.url ∈ (specDedup second).map SRec.url)) = []
  · rw [if_pos hI, if_pos hI]
    by_cases hSp : specDedup primary = []
    · rw [if_neg (by simpa using hSp), if_pos hSp]
    · rw [if_pos hSp, if_neg hSp]
  · rw [if_neg hI, if_neg hI]

lemma dedupLabelGo_subset (l : List PRec) :
    ∀ seen r, r ∈ dedupLabelGo l seen → r ∈ l := by
  induction l with
  | nil => intro seen r h; simp [dedupLabelGo] at h
  | cons a l ih =>
    intro seen r h
    by_cases h1 : a.label ≠ [] ∧ a.label ∉ seen
    · simp only [dedupLabelGo, if_pos h1] at h
      rcases List.mem_cons.mp h with h | h
      · subst h; exact List.mem_cons_self _ _
      · exact List.mem_cons_of_mem _ (ih _ _ h)
    · by_cases h2 : a.label = []
      · simp only [dedupLabelGo, if_neg h1, if_pos h2] at h
        rcases List.mem_cons.mp h with h | h
        · subst h; exact List.mem_cons_self _ _
        · exact List.mem_cons_of_mem _ (ih _ _ h)
      · simp only [dedupLabelGo, if_neg h1, if_neg h2] at h
        exact List.mem_cons_of_mem _ (ih _ _ h)

lemma dedupLabelGo_not_seen (l : List PRec) :
    ∀ seen r, r ∈ dedupLabelGo l seen → r.label ≠ [] → r.label ∉ seen := by
  induction l with
  | nil => intro seen r h; simp [dedupLabelGo] at h
  | cons a l ih =>
    intro seen r h hne
    by_cases h1 : a.label ≠ [] ∧ a.label ∉ seen
    · simp only [dedupLabelGo, if_pos h1] at h
      rcases List.mem_cons.mp h with h | h
      · subst h; exact h1.2
      · exact fun hmem => ih _ _ h hne (List.mem_cons_of_mem _ hmem)
    · by_cases h2 : a.label = []
      · simp only [dedupLabelGo, if_neg h1, if_pos h2] at h
        rcases List.mem_cons.mp h with h | h
        · subst h; exact absurd h2 hne
        · exact ih _ _ h hne
      · simp only [dedupLabelGo, if_neg h1, if_neg h2] at h
        exact ih _ _ h hne

lemma dedupLabelGo_pairwise (l : List PRec) :
    ∀ seen, List.Pairwise (fun a b => a.label = b.label → a.label = [])
      (dedupLabelGo l seen) := by
  induction l with
  | nil => intro seen; simp [dedupLabelGo]
  | cons a l ih =>
    intro seen
    by_cases h1 : a.label ≠ [] ∧ a.label ∉ seen
    · simp only [dedupLabelGo, if_pos h1]
      refine List.Pairwise.cons ?_ (ih _)
      intro b hb hab
      exact absurd (List.mem_cons.mpr (Or.inl hab.symm))
        (dedupLabelGo_not_seen l _ b hb (fun h => h1.1 (hab.trans h)))
    · by_cases h2 : a.label = []
      · simp only [dedupLabelGo, if_neg h1, if_pos h2]
        exact List.Pairwise.cons (fun _ _ _ => h2) (ih _)
      · simp only [dedupLabelGo, if_neg h1, if_neg h2]
        exact ih _

lemma dedupLabelGo_filter_empty (l : List PRec) :
    ∀ seen, (dedupLabelGo l seen).filter (fun r => decide (r.label = []))
      = l.filter (fun r => decide (r.label = [])) := by
  induction l with
  | nil => intro seen; rfl
  | cons a l ih =>
    intro seen
    by_cases h1 : a.label ≠ [] ∧ a.label ∉ seen
    · simp only [dedupLabelGo, if_pos h1, List.filter_cons]
      simp [h1.1, ih]
    · by_cases h2 : a.label = []
      · simp only [dedupLabelGo, if_neg h1, if_pos h2, List.filter_cons]
        simp [h2, ih]
      · simp only [dedupLabelGo, if_neg h1, if_neg h2, List.filter_cons]
        simp [h2, ih]

lemma processGo_mem (utm : List Nat) (ri sf : Bool) (inline : List (List Nat)) :
    ∀ (l : List SRec) (x : PRec),
      x ∈ (processGo utm ri sf inline l).1 ∨ x ∈ (processGo utm ri sf inline l).2 →
      ∃ s ∈ l, x = ⟨addUtmTrackingToUrl s.url utm, takeBeforeByte 47 s.label⟩ := by
  intro l
  induction l with
  | nil => intro x h; simp [processGo] at h
  | cons s l ih =>
    intro x h
    by_cases h1 : (decide (s.url ∈ inline) && ri) = true
    · simp only [processGo, if_pos h1] at h
      obtain ⟨t, ht, hx⟩ := ih x h
      exact ⟨t, List.mem_cons_of_mem _ ht, hx⟩
    · by_cases h2 : (decide (s.url ∈ inline) && sf) = true
      · simp only [processGo, if_neg h1, if_pos h2] at h
        rcases h with h | h
        · rcases List.mem_cons.mp h with h | h
          · exact ⟨s, List.mem_cons_self _ _, h⟩
          · obtain ⟨t, ht, hx⟩ := ih x (Or.inl h)
            exact ⟨t, List.mem_cons_of_mem _ ht, hx⟩
        · obtain ⟨t, ht, hx⟩ := ih x (Or.inr h)
          exact ⟨t, List.mem_cons_of_mem _ ht, hx⟩
      · simp only [processGo, if_neg h1, if_neg h2] at h
        rcases h with h | h
        · obtain ⟨t, ht, hx⟩ := ih x (Or.inl h)
          exact ⟨t, List.mem_cons_of_mem _ ht, hx⟩
        · rcases List.mem_cons.mp h with h | h
          · exact ⟨s, List.mem_cons_self _ _, h⟩
          · obtain ⟨t, ht, hx⟩ := ih x (Or.inr h)
            exact ⟨t, List.mem_cons_of_mem _ ht, hx⟩

lemma dedupGo_mem (l : List Doc) :
    ∀ seen r, r ∈ dedupGo l seen →
      ∃ d ∈ l, d.source = some r.url ∧ r.url ≠ [] ∧
        r.label = d.title.getD [] ∧ r.length = d.pageContent.length := by
  induction l with
  | nil => intro seen r h; simp [dedupGo] at h
  | cons d l ih =>
    intro seen r h
    rcases hs : d.source with _ | s
    · simp only [dedupGo, hs] at h
      obtain ⟨t, ht, hx⟩ := ih _ _ h
      exact ⟨t, List.mem_cons_of_mem _ ht, hx⟩
    · by_cases h1 : s ≠ [] ∧ s ∉ seen
      · simp only [dedupGo, hs, if_pos h1] at h
        rcases List.mem_cons.mp h with h | h
        · subst h
          exact ⟨d, List.mem_cons_self _ _, hs, h1.1, rfl, rfl⟩
        · obtain ⟨t, ht, hx⟩ := ih _ _ h
          exact ⟨t, List.mem_cons_of_mem _ ht, hx⟩
      · simp only [dedupGo, hs, if_neg h1] at h
        obtain ⟨t, ht, hx⟩ := ih _ _ h
        exact ⟨t, List.mem_cons_of_mem _ ht, hx⟩

lemma relevantSources_mem (dp : Bool) (primary second : List Doc) (s : SRec)
    (h : s ∈ relevantSources dp primary second) :
    s ∈ dedupBySource primary ∨ s ∈ dedupBySource second := by
  cases dp with
  | false => exact Or.inl (by simpa [relevantSources] using h)
  | true =>
    simp only [relevantSources, if_true] at h
    by_cases hrel : (dedupBySource primary).filter
        (fun t => decide (t.url ∈ (dedupBySource second).map SRec.url)) = []
    · rw [if_pos hrel] at h
      by_cases hS : dedupBySource primary ≠ []
      · rw [if_pos hS] at h; exact Or.inl h
      · rw [if_neg hS] at h; exact Or.inr h
    · rw [if_neg hrel] at h
      exact Or.inl (List.mem_of_mem_filter h)

/-- Claim C5: the final sources list contains no two records with the same
non-empty label (first occurrence kept), keeps every empty-label record of
the pre-dedup list, and each of its records derives from a memory hit whose
content length is at least `min_source_char`, with the utm parameter added
to the url and the label truncated at the first slash of the title. -/
theorem claim_C5 (st : RtSettings) (msgText : List Nat)
    (primary second : List Doc) :
    List.Pairwise (fun a b => a.label = b.label → a.label = [])
      (computeSources st msgText primary second) ∧
    (computeSources st msgText primary second).filter
        (fun r => decide (r.label = []))
      = (processedCombined st msgText primary second).filter
        (fun r => decide (r.label = [])) ∧
    ∀ r ∈ computeSources st msgText primary second,
      ∃ d ∈ primary ++ second,
        st.minSourceChar.getD 100 ≤ (d.pageContent.length : Int) ∧
        ∃ u, d.source = some u ∧ u ≠ [] ∧
          r.url = addUtmTrackingToUrl u (st.utmSource.getD []) ∧
          r.label = takeBeforeByte 47 (d.title.getD []) := by
  refine ⟨dedupLabelGo_pairwise _ _, dedupLabelGo_filter_empty _ _, ?_⟩
  intro r hr
  have hr1 : r ∈ processedCombined st msgText primary second :=
    dedupLabelGo_subset _ _ _ hr
  have hex : ∃ t ∈ (relevantSources (st.doublePass.getD false) primary second).filter
        (fun t => decide (st.minSourceChar.getD 100 ≤ (t.length : Int))),
      r = ⟨addUtmTrackingToUrl t.url (st.utmSource.getD []),
           takeBeforeByte 47 t.label⟩ := by
    simp only [processedCombined] at hr1
    cases hsf : st.suggestionFirst.getD false with
    | false =>
      rw [hsf] at hr1
      simp only [Bool.false_eq_true, if_false] at hr1
      exact processGo_mem _ _ _ _ _ r (Or.inr hr1)
    | true =>
      rw [hsf] at hr1
      simp only [if_true] at hr1
      exact processGo_mem _ _ _ _ _ r (List.mem_append.mp hr1)
  obtain ⟨t, htmem, hx⟩ := hex
  obtain ⟨ht2, hlen⟩ := List.mem_filter.mp htmem
  rw [decide_eq_true_eq] at hlen
  subst hx
  rcases relevantSources_mem _ _ _ _ ht2 with hmem | hmem
  · obtain ⟨d, hd, hsrc, hne, hlab, hlength⟩ := dedupGo_mem _ _ _ hmem
    rw [hlength] at hlen
    exact ⟨d, List.mem_append_left _ hd, hlen, t.url, hsrc, hne, rfl, by rw [hlab]⟩
  · obtain ⟨d, hd, hsrc, hne, hlab, hlength⟩ := dedupGo_mem _ _ _ hmem
    rw [hlength] at hlen
    exact ⟨d, List.mem_append_right _ hd, hlen, t.url, hsrc, hne, rfl, by rw [hlab]⟩

def c5Doc : Doc := ⟨some (strB "http://a.c/x"), some (strB "T/sub"), strB "abc"⟩

def c5St : RtSettings := { minSourceChar := some 1 }

def c5R : PRec := ⟨strB "http://a.c/x", strB "T"⟩

/-- Claim C5 witness: the theorem applied at a concrete configuration,
memory list and output record. -/
theorem claim_C5_witness :
    c5R ∈ computeSources c5St [] [c5Doc] [] ∧
    ∃ d ∈ [c5Doc] ++ ([] : List Doc),
      c5St.minSourceChar.getD 100 ≤ (d.pageContent.length : Int) ∧
      ∃ u, d.source = some u ∧ u ≠ [] ∧
        c5R.url = addUtmTrackingToUrl u (c5St.utmSource.getD []) ∧
        c5R.label = takeBeforeByte 47 (d.title.getD []) :=
  ⟨by decide, (claim_C5 c5St [] [c5Doc] []).2.2 c5R (by decide)⟩

/-- Claim C10: when no form session is active and the post-language-guard
message text contains the `<no_sources>` marker, `before_cat_sends_message`
returns the message with the marker removed from the text and everything
else — the sources list and all other fields — unchanged; in particular no
sources are attached and no utm enrichment is applied. -/
theorem claim_C10 {γ : Type} (st : RtSettings) (env : SendEnv) (msg : OutMsg γ)
    (hform : env.activeForm = false)
    (htag : hasSub noSourcesTag
      (if env.isSameLang then msg.text else env.translated) = true) :
    beforeCatSendsMessage st env msg =
      { msg with text := (replaceAll noSourcesTag []
          (if env.isSameLang then msg.text else env.translated)) } := by
  simp [beforeCatSendsMessage, hform, htag]

def c10Env : SendEnv := ⟨true, [], false, [], []⟩

def c10Msg : OutMsg Nat := ⟨strB "a <no_sources>b", [⟨strB "u", strB "L"⟩], 7⟩

/-- Claim C10 witness: the theorem applied at a concrete message carrying
the marker, with a pre-existing sources list and an extra field that both
survive unchanged. -/
theorem claim_C10_witness :
    (c10Env.activeForm = false ∧
      hasSub noSourcesTag
        (if c10Env.isSameLang then c10Msg.text else c10Env.translated) = true) ∧
    beforeCatSendsMessage {} c10Env c10Msg
      = ⟨strB "a b", [⟨strB "u", strB "L"⟩], 7⟩ :=
  ⟨⟨rfl, by decide⟩, by
    rw [claim_C10 {} c10Env c10Msg rfl (by decide)]
    decide⟩

end CGE
